import Mathlib

/-!
# Verification of the Highcharts data layer (DataConverter, DataParser, DataStore)

Shallow embedding of the data-layer sources:
* `DataConverter` (transpiled JS, `src/unnamed/part_000`)
* `DataParser` (`src/ts/Data/Parsers/DataParser.ts`)
* `DataStore` (`src/js/Data/Stores/DataStore.js`)

JavaScript machine integers/floats are modelled by `Int`/`Rat`; every value
appearing in the verified properties is an exactly representable decimal, so
rationals are a faithful model.  `NaN` is modelled as `Option.none` wherever a
number can be `NaN`.  `undefined` cells are the distinguished value
`CellValue.absent`.
-/

namespace HighchartsData

/-! ## JavaScript primitive models -/

/-- JavaScript whitespace characters (the `\s` class restricted to the
characters relevant here: space, tab, newline, carriage return, form feed,
vertical tab, NBSP). -/
def jsIsSpace (c : Char) : Bool :=
  c = ' ' ∨ c = '\t' ∨ c = '\n' ∨ c = '\r' ∨ c = '\x0b' ∨ c = '\x0c' ∨ c = ' '

/-- `str.replace(/^\s+|\s+$/g, '')`: strip leading and trailing whitespace. -/
def jsStripEnds (s : String) : String :=
  String.mk (((s.data.dropWhile jsIsSpace).reverse.dropWhile jsIsSpace).reverse)

/-- Numeric value of a list of decimal digit characters. -/
def digitsVal (ds : List Char) : Nat :=
  ds.foldl (fun acc c => acc * 10 + (c.toNat - '0'.toNat)) 0

/-- JS `parseInt(str, 10)`: skip leading whitespace, optional sign, longest
run of decimal digits; `none` models `NaN` (no digits). -/
def jsParseInt (s : String) : Option Int :=
  let cs := s.data.dropWhile jsIsSpace
  let signed : Bool × List Char :=
    match cs with
    | '+' :: r => (false, r)
    | '-' :: r => (true, r)
    | r => (false, r)
  let ds := signed.2.takeWhile Char.isDigit
  if ds.isEmpty then none
  else some ((if signed.1 then -1 else 1) * (digitsVal ds : Int))

/-- A decimal scientific value `mant · 10 ^ exp`, the exact value of a JS
decimal literal.  (Intermediate representation keeping all arithmetic on
integers.) -/
structure JSDec where
  mant : Int
  exp : Int
  deriving DecidableEq, Repr

/-- The rational value of a decimal scientific pair. -/
def JSDec.toRat (d : JSDec) : Rat :=
  if 0 ≤ d.exp then Rat.divInt (d.mant * (10 : Int) ^ d.exp.toNat) 1
  else Rat.divInt d.mant ((10 : Int) ^ (-d.exp).toNat)

/-- Core of the ECMAScript decimal literal grammar:
`[+-]? (digits ['.' digits?] | '.' digits) [('e'|'E') [+-]? digits]`.
Returns the parsed value together with the unconsumed suffix, or `none` when
no digit is consumed.  An exponent marker not followed by a digit is not
consumed (`parseFloat("1e") = 1`).  `Infinity` and non-decimal radix prefixes
are outside the modelled fragment (no verified property exercises them). -/
def parseDecimalLiteral (cs : List Char) : Option (JSDec × List Char) :=
  let signed : Int × List Char :=
    match cs with
    | '+' :: r => (1, r)
    | '-' :: r => (-1, r)
    | r => (1, r)
  let intDs := signed.2.takeWhile Char.isDigit
  let afterInt := signed.2.dropWhile Char.isDigit
  let fracPart : List Char × List Char :=
    match afterInt with
    | '.' :: r => (r.takeWhile Char.isDigit, r.dropWhile Char.isDigit)
    | r => ([], r)
  let fracDs := fracPart.1
  let afterFrac := if intDs.isEmpty ∧ fracDs.isEmpty then afterInt else fracPart.2
  if intDs.isEmpty ∧ fracDs.isEmpty then none
  else
    let mant := signed.1 * (digitsVal (intDs ++ fracDs) : Int)
    let exp0 : Int := -(fracDs.length : Int)
    match afterFrac with
    | e :: r =>
      if e = 'e' ∨ e = 'E' then
        let esigned : Int × List Char :=
          match r with
          | '+' :: r2 => (1, r2)
          | '-' :: r2 => (-1, r2)
          | r2 => (1, r2)
        let eDs := esigned.2.takeWhile Char.isDigit
        if eDs.isEmpty then some (⟨mant, exp0⟩, afterFrac)
        else some (⟨mant, exp0 + esigned.1 * (digitsVal eDs : Int)⟩,
                   esigned.2.dropWhile Char.isDigit)
      else some (⟨mant, exp0⟩, afterFrac)
    | [] => some (⟨mant, exp0⟩, [])

/-- JS `parseFloat`: longest numeric prefix after leading whitespace;
`none` models `NaN`. -/
def jsParseFloat (s : String) : Option Rat :=
  match parseDecimalLiteral (s.data.dropWhile jsIsSpace) with
  | some p => some p.1.toRat
  | none => none

/-- JS `Number(str)` (the unary `+` coercion on a string): whitespace-trimmed
string must be empty (value `0`) or a full decimal literal; `none` models
`NaN`.  Radix-prefixed and `Infinity` literals are outside the modelled
fragment. -/
def jsToNumber (s : String) : Option Rat :=
  let cs := (jsStripEnds s).data
  if cs.isEmpty then some 0
  else
    match parseDecimalLiteral cs with
    | some p => if p.2.isEmpty then some p.1.toRat else none
    | none => none

/-! ## Calendar arithmetic (`Date.UTC`, `Date#getDate`)

Civil-calendar day counting (Howard Hinnant's algorithm), used to model the
ECMAScript UTC date functions.  The verification environment's clock and
timezone are modelled as UTC (timezone offset `0`). -/

/-- Days since 1970-01-01 of the civil date `(y, m, d)` with `1 ≤ m ≤ 12`;
`d` may be out of range, acting as a day offset (as in JS date normalization). -/
def daysFromCivil (y m d : Int) : Int :=
  let y' := if m ≤ 2 then y - 1 else y
  let era := y'.fdiv 400
  let yoe := y' - era * 400
  let mp := (m + 9).emod 12
  let doy := (153 * mp + 2).fdiv 5 + d - 1
  let doe := yoe * 365 + yoe.fdiv 4 - yoe.fdiv 100 + doy
  era * 146097 + doe - 719468

/-- Civil date `(y, m, d)` of a day count since 1970-01-01. -/
def civilFromDays (z0 : Int) : Int × Int × Int :=
  let z := z0 + 719468
  let era := z.fdiv 146097
  let doe := z - era * 146097
  let yoe := (doe - doe.fdiv 1460 + doe.fdiv 36524 - doe.fdiv 146096).fdiv 365
  let doy := doe - (365 * yoe + yoe.fdiv 4 - yoe.fdiv 100)
  let mp := (5 * doy + 2).fdiv 153
  let d := doy - (153 * mp + 2).fdiv 5 + 1
  let m := if mp < 10 then mp + 3 else mp - 9
  (yoe + era * 400 + (if m ≤ 2 then 1 else 0), m, d)

/-- JS `Date.UTC(year, month, day)` in milliseconds: `month` is 0-based and
overflows into the year; years `0..99` map to `1900..1999`. -/
def jsDateUTC (year month day : Int) : Int :=
  let y := if 0 ≤ year ∧ year ≤ 99 then year + 1900 else year
  let y' := y + month.fdiv 12
  let m' := month.emod 12
  daysFromCivil y' (m' + 1) day * 86400000

/-- JS `Date#getDate` (day of month) of a millisecond timestamp, in the
modelled UTC environment. -/
def jsGetDate (ts : Int) : Int :=
  (civilFromDays (ts.fdiv 86400000)).2.2

/-! ## Tabular data model

`DataTable`/`DataTableRow` are imported dependencies of the three provided
sources (not themselves among them); their operations are modelled from the
spec (sections 3, 4.2, 4.3).  Cell values cover the scalar `CellType`
alternatives; a `Date` cell is its timestamp.  Nested-table cells are outside
the modelled fragment (no verified property exercises them).  `absent` is the
distinguished "absent" value. -/

inductive CellValue where
  | absent
  | boolV (b : Bool)
  | strV (s : String)
  | numV (q : Rat)
  | dateV (ts : Int)
  deriving DecidableEq, Repr

/-- Modelled from the spec: `uniqueKey` (from `Utilities.js`, not among the
provided sources) generates identifiers that are pairwise distinct; it is
modelled as an injective function of an explicitly threaded counter. -/
def uniqueKey (n : Nat) : String :=
  String.mk ('u' :: 'n' :: 'i' :: 'q' :: 'u' :: 'e' :: '-' :: List.replicate n 'k')

/-- A table row: an identifier plus an insertion-ordered name-to-cell map
(spec section 3). -/
structure DataTableRow where
  id : String
  cells : List (String × CellValue)
  deriving DecidableEq, Repr

/-- First value bound to a key in an association list. -/
def alookup (key : String) : List (String × α) → Option α
  | [] => none
  | p :: rest => if p.1 = key then some p.2 else alookup key rest

namespace DataTableRow

/-- `row.getCellNames()`: the keys of the cell map. -/
def getCellNames (row : DataTableRow) : List String :=
  row.cells.map Prod.fst

/-- `row.getCell(name)`: the cell value, `undefined` when the cell is
missing (JS property access). -/
def getCell (row : DataTableRow) (name : String) : CellValue :=
  (alookup name row.cells).getD .absent

/-- Modelled from the spec: `DataTableRow#insertCell` (not among the provided
sources) inserts a new cell; the cell map keeps one value per name, so an
already-present name is rejected and the row is unchanged. -/
def insertCell (row : DataTableRow) (name : String) (value : CellValue) : DataTableRow :=
  if name ∈ row.getCellNames then row
  else { row with cells := row.cells ++ [(name, value)] }

end DataTableRow

/-- Modelled from the spec: the `DataTableRow` constructor takes a cell
record, uses its `id` entry as the row identifier when supplied (spec:
"generated if not supplied") and otherwise draws a generated unique key from
the threaded counter. -/
def mkDataTableRow (cells : List (String × CellValue)) (ctr : Nat) :
    DataTableRow × Nat :=
  match alookup "id" cells with
  | some (.strV s) => ({ id := s, cells := cells.filter (fun p => p.1 ≠ "id") }, ctr)
  | _ => ({ id := uniqueKey ctr, cells := cells }, ctr + 1)

/-- A table: ordered rows plus the presentation state's column order
(spec section 3). -/
structure DataTable where
  rows : List DataTableRow
  presentation : List String
  deriving DecidableEq, Repr

namespace DataTable

/-- Modelled from the spec: `DataTable#insertRow` (not among the provided
sources) rejects a duplicate row identifier ("reject or overwrite, but never
silently duplicate"; the real method returns `false` and leaves the table
unchanged) and otherwise appends the row. -/
def insertRow (t : DataTable) (row : DataTableRow) : DataTable :=
  if t.rows.any (fun r => r.id = row.id) then t
  else { t with rows := t.rows ++ [row] }

end DataTable

/-! ## DataConverter (`src/unnamed/part_000`)

Value union accepted by the converter methods
(`DataConverter.Type`: boolean, number, string, `Date`, `DataTable`,
null/undefined). -/

inductive JSValue where
  | boolJ (b : Bool)
  | numJ (q : Rat)
  | strJ (s : String)
  | dateJ (ts : Int)
  | tableJ (t : DataTable)
  | undefJ
  deriving DecidableEq

/-- The converter's option record after merging with
`DataConverter.defaultOptions` (`dateFormat: ''`, `alternativeFormat: ''`). -/
structure ConverterOptions where
  dateFormat : String
  alternativeFormat : String
  decimalPoint : Option String
  deriving DecidableEq, Repr

/-- Constructor argument: options with all fields optional (merged over the
defaults). -/
structure ConverterOptionsInput where
  dateFormat : Option String := none
  alternativeFormat : Option String := none
  decimalPoint : Option String := none

/-- The `DataConverter` instance state.  `decimalRegex` is determined by the
decimal point: the pattern `^(-?[0-9]+)<sep>([0-9]+)$` is represented by its
separator character (`none` when `decimalPoint` is absent or invalid, matching
the `decimalPoint !== '.' && decimalPoint !== ','` guard). -/
structure DataConverter where
  options : ConverterOptions
  parseDateFn : Option (String → Option Int)
  decimalRegex : Option Char

/-- The `DataConverter(options, parseDate)` constructor. -/
def mkDataConverter (options : ConverterOptionsInput)
    (parseDateFn : Option (String → Option Int)) : DataConverter :=
  let merged : ConverterOptions :=
    { dateFormat := options.dateFormat.getD ""
      alternativeFormat := options.alternativeFormat.getD ""
      decimalPoint := options.decimalPoint }
  let sep : Option Char :=
    match merged.decimalPoint with
    | some "." => some '.'
    | some "," => some ','
    | _ => none
  { options := merged, parseDateFn := parseDateFn, decimalRegex := sep }

/-- `str.replace(decimalRegex, '$1.$2')`: rewrite `<-? digits><sep><digits>`
(anchored on both ends) into dot-decimal form; any other string is returned
unchanged. -/
def decimalReplace (sep : Char) (s : String) : String :=
  let signed : Bool × List Char :=
    match s.data with
    | '-' :: r => (true, r)
    | r => (false, r)
  let ds1 := signed.2.takeWhile Char.isDigit
  let rest := signed.2.dropWhile Char.isDigit
  match rest with
  | c :: r2 =>
    if c = sep ∧ ¬ ds1.isEmpty ∧ ¬ r2.isEmpty ∧ r2.all Char.isDigit then
      String.mk ((if signed.1 then ['-'] else []) ++ ds1 ++ '.' :: r2)
    else s
  | [] => s

namespace DataConverter

/-- `DataConverter#trim(str, inside)`: strip edge whitespace; when `inside`
and the string matches `^[0-9\s]+$`, delete interior whitespace; finally apply
the decimal-separator rewrite when configured. -/
def trim (c : DataConverter) (str : String) (inside : Bool := false) : String :=
  let s := jsStripEnds str
  let s :=
    if inside ∧ ¬ s.data.isEmpty ∧ s.data.all (fun ch => ch.isDigit ∨ jsIsSpace ch) then
      String.mk (s.data.filter (fun ch => ¬ jsIsSpace ch))
    else s
  match c.decimalRegex with
  | some sep => decimalReplace sep s
  | none => s

/-- `DataConverter#asNumber(value)`: `NaN` never escapes (string fallback 0);
a table yields its row count; a `Date` its day of month. -/
def asNumber (c : DataConverter) (value : JSValue) : Rat :=
  match value with
  | .numJ q => q
  | .boolJ b => if b then 1 else 0
  | .strJ s =>
    match jsParseFloat (c.trim s) with
    | some q => q
    | none => 0
  | .tableJ t => (t.rows.length : Rat)
  | .dateJ ts => (jsGetDate ts : Rat)
  | .undefJ => 0

end DataConverter

/-! ### Date-format registry

Each registry entry pairs an anchored pattern (represented by the exact
decomposition it accepts) with the parser applied to a successful match.
The patterns all have the shape `digits sep digits sep digits` where `sep`
is a dash, slash or dot, with fixed digit-run lengths, so matching is
modelled by decomposing the string into its three maximal digit runs. -/

/-- Decompose `s` as `run₁ sep run₂ sep run₃` where each `runᵢ` is a maximal
(possibly empty) digit run and `sep ∈ {'-', '/', '.'}`. -/
def splitDateLike (s : String) : Option (String × String × String) :=
  let isSep : Char → Bool := fun ch => ch = '-' ∨ ch = '/' ∨ ch = '.'
  let d1 := s.data.takeWhile Char.isDigit
  match s.data.dropWhile Char.isDigit with
  | s1 :: r1 =>
    if isSep s1 then
      let d2 := r1.takeWhile Char.isDigit
      match r1.dropWhile Char.isDigit with
      | s2 :: r2 =>
        if isSep s2 then
          let d3 := r2.takeWhile Char.isDigit
          if (r2.dropWhile Char.isDigit).isEmpty then
            some (String.mk d1, String.mk d2, String.mk d3)
          else none
        else none
      | [] => none
    else none
  | _ => none

/-- Match the anchored three-component date patterns (digit-run, separator,
digit-run, separator, digit-run): a decomposition whose run lengths lie in
the given ranges. -/
def matchRuns (lo1 hi1 lo2 hi2 lo3 hi3 : Nat) (s : String) :
    Option (String × String × String) :=
  match splitDateLike s with
  | some g =>
    if lo1 ≤ g.1.length ∧ g.1.length ≤ hi1 ∧
       lo2 ≤ g.2.1.length ∧ g.2.1.length ≤ hi2 ∧
       lo3 ≤ g.2.2.length ∧ g.2.2.length ≤ hi3 then some g
    else none
  | none => none

/-- `+match[i]` on a capture group: digit strings coerce to their value. -/
def groupVal (g : String) : Int :=
  (digitsVal g.data : Int)

/-- The verification environment's clock: `new Date().getFullYear() - 2000`
as used by the `dd/mm/YY` parser (today: 2026). -/
def jsCurrentYearMinus2000 : Int := 26

/-- A date-format registry entry: anchored pattern and match parser
(the parsers return a finite timestamp for every successful match). -/
structure DateFormatEntry where
  regexMatch : String → Option (String × String × String)
  parser : String × String × String → Int
  alternative : Option String

/-- `this.dateFormats`, in declaration order. -/
def dateFormats : List (String × DateFormatEntry) :=
  [ ("YYYY/mm/dd",
      { regexMatch := matchRuns 4 4 1 2 1 2
        parser := fun g => jsDateUTC (groupVal g.1) (groupVal g.2.1 - 1) (groupVal g.2.2)
        alternative := none }),
    ("dd/mm/YYYY",
      { regexMatch := matchRuns 1 2 1 2 4 4
        parser := fun g => jsDateUTC (groupVal g.2.2) (groupVal g.2.1 - 1) (groupVal g.1)
        alternative := some "mm/dd/YYYY" }),
    ("mm/dd/YYYY",
      { regexMatch := matchRuns 1 2 1 2 4 4
        parser := fun g => jsDateUTC (groupVal g.2.2) (groupVal g.1 - 1) (groupVal g.2.1)
        alternative := none }),
    ("dd/mm/YY",
      { regexMatch := matchRuns 1 2 1 2 2 2
        parser := fun g =>
          let year := groupVal g.2.2
          let year := if year > jsCurrentYearMinus2000 then year + 1900 else year + 2000
          jsDateUTC year (groupVal g.2.1 - 1) (groupVal g.1)
        alternative := some "mm/dd/YY" }),
    ("mm/dd/YY",
      { regexMatch := matchRuns 1 2 1 2 2 2
        parser := fun g => jsDateUTC (groupVal g.2.2 + 2000) (groupVal g.1 - 1) (groupVal g.2.1)
        alternative := none }) ]

/-- The auto-detection loop of `parseDate`: first registry entry (in
declaration order) whose pattern matches, with its match. -/
def detectFormat :
    List (String × DateFormatEntry) → String →
      Option (String × DateFormatEntry × (String × String × String))
  | [], _ => none
  | (key, fmt) :: rest, value =>
    match fmt.regexMatch value with
    | some m => some (key, fmt, m)
    | none => detectFormat rest value

/-- The `Date.parse` fallback of `parseDate` (lines 370-391).

`Date.parse` is implementation-defined beyond the ISO format; it is modelled
as the ECMA-mandated ISO calendar-date parser `YYYY-MM-DD` (with in-range
month and day), interpreted as UTC.  The timezone-hint branch
(`value.match(/:.+(GMT|UTC|[Z+-])/)`) only rewrites strings containing `':'`,
and its rewrites never remove that `':'`; since the modelled `Date.parse`
accepts no string containing `':'`, the branch is equivalent to the identity
here.  The environment's timezone offset is modelled as `0` (UTC), so the
`getTimezoneOffset` adjustment vanishes. -/
def parseDateFallback (value : String) : Option Int :=
  match matchRuns 4 4 2 2 2 2 value with
  | some g =>
    if value.data.all (fun ch => ch.isDigit ∨ ch = '-') ∧
       1 ≤ groupVal g.2.1 ∧ groupVal g.2.1 ≤ 12 ∧
       1 ≤ groupVal g.2.2 ∧ groupVal g.2.2 ≤ 31 then
      some (jsDateUTC (groupVal g.1) (groupVal g.2.1 - 1) (groupVal g.2.2))
    else none
  | none => none

/-- JS `a || b` on strings: the empty string is falsy. -/
def jsOrS (a : Option String) (b : String) : String :=
  match a with
  | some s => if s = "" then b else s
  | none => b

/-- `DataConverter#parseDate(value, dateFormatProp)`, with the instance state
threaded explicitly; the returned state equals the input state because the
method assigns no instance field (the `options.dateFormat` memoization at
line 348 of the source is commented out). -/
def parseDateS (converter : DataConverter) (value : String)
    (dateFormatProp : Option String) : Option Int × DataConverter :=
  match converter.parseDateFn with
  | some fn => (fn value, converter)
  | none =>
    let dateFormat := jsOrS dateFormatProp converter.options.dateFormat
    let result : Option Int :=
      if dateFormat = "" then
        match detectFormat dateFormats value with
        | some (_, fmt, m) => some (fmt.parser m)
        | none => parseDateFallback value
      else
        let fmt :=
          match alookup dateFormat dateFormats with
          | some f => f
          | none => -- the selected format is invalid: default to YYYY/mm/dd
            { regexMatch := matchRuns 4 4 1 2 1 2
              parser := fun g =>
                jsDateUTC (groupVal g.1) (groupVal g.2.1 - 1) (groupVal g.2.2)
              alternative := none }
        match fmt.regexMatch value with
        | some m => some (fmt.parser m)
        | none => parseDateFallback value
    (result, converter)

/-- `DataConverter#guessType(value)`.  `isNumber(dateVal)` excludes `NaN`, and
the truthiness test `dateVal && ...` additionally excludes the timestamp `0`. -/
def DataConverter.guessType (c : DataConverter) (value : String) : String :=
  let trimVal := c.trim value
  let trimInsideVal := c.trim value true
  let isNumeric :=
    match jsToNumber trimInsideVal, jsParseFloat trimInsideVal with
    | some nv, some fv => nv == fv
    | _, _ => false
  if isNumeric then
    if (jsParseFloat trimInsideVal).getD 0
        > Rat.divInt (365 * 24 * 3600 * 1000 : Int) 1 then "Date"
    else "number"
  else
    let dateVal := if trimVal ≠ "" then (parseDateS c value none).1 else none
    match dateVal with
    | some d => if d ≠ 0 then "Date" else "string"
    | none => "string"

/-! ### deduceDateFormat -/

/-- A slot of the `stable` array: never assigned (`undefined`), the sentinel
`false`, or the stable value seen so far. -/
inductive StableEntry where
  | unset
  | falseE
  | val (n : Int)
  deriving DecidableEq, Repr

/-- The loop state of `deduceDateFormat`: the three `stable` and `max` slots,
the last sample's `guessedFormat` (empty until a nonempty sample is seen) and
the `madeDeduction` flag. -/
structure DeduceAcc where
  stable : List StableEntry
  maxv : List (Option Int)
  guessedFormat : List String
  madeDeduction : Bool
  deriving DecidableEq, Repr

/-- One element of one sample: slot `j` holding the digits `s`.
`parseInt` results of `NaN` or `0` are falsy and skipped. -/
def deduceElemStep (acc : DeduceAcc) (j : Nat) (s : String) : DeduceAcc :=
  match jsParseInt s with
  | none => acc
  | some e =>
    if e = 0 then acc
    else
      let maxv := acc.maxv.set j (some
        (match acc.maxv.getD j none with
         | none => e
         | some mv => if mv = 0 ∨ mv < e then e else mv))
      let stable := acc.stable.set j
        (match acc.stable.getD j .unset with
         | .unset => .val e
         | .val s0 => if s0 ≠ e then .falseE else .val s0
         | .falseE => .falseE)
      if e > 31 then
        { acc with
          maxv := maxv
          stable := stable
          guessedFormat := acc.guessedFormat.set j (if e < 100 then "YY" else "YYYY") }
      else if e > 12 then
        { acc with
          maxv := maxv
          stable := stable
          guessedFormat := acc.guessedFormat.set j "dd"
          madeDeduction := true }
      else
        { acc with
          maxv := maxv
          stable := stable
          guessedFormat :=
            if (acc.guessedFormat.getD j "").length = 0 then acc.guessedFormat.set j "mm"
            else acc.guessedFormat }

/-- JS `str.split(' ')` on a character list: split at every single space,
keeping empty pieces between consecutive separators. -/
def splitCharsOnSpace : List Char → List (List Char)
  | [] => [[]]
  | c :: rest =>
    let r := splitCharsOnSpace rest
    if c = ' ' then [] :: r
    else (c :: r.headD []) :: r.tail

/-- One sample of `deduceDateFormat`'s scan loop: empty samples are skipped;
otherwise the sample is trimmed, its separators replaced by spaces and split,
`guessedFormat` is reset, and the first three components are processed. -/
def deduceSampleStep (acc : DeduceAcc) (sample : String) : DeduceAcc :=
  if sample = "" then acc
  else
    let thing :=
      (splitCharsOnSpace ((jsStripEnds sample).data.map
        (fun ch => if ch = '/' ∨ ch = '-' ∨ ch = '.' then ' ' else ch))).map String.mk
    let acc := { acc with guessedFormat := ["", "", ""] }
    ((thing.take 3).enum).foldl (fun a p => deduceElemStep a p.1 p.2) acc

/-- The repair passes and the final format of `deduceDateFormat` once a
deduction was made.  The source iterates the repair loop up to
`stable.length`; slots never assigned have an undefined `max`, on which both
repair conditions are vacuously false, so iterating all three slots is
equivalent. -/
def deduceRepair (acc : DeduceAcc) : String :=
  let maxGt12 : Nat → Bool := fun j =>
    match acc.maxv.getD j none with
    | some m => decide (m > 12)
    | none => false
  let gf := (List.range 3).foldl (fun gf j =>
    match acc.stable.getD j .unset with
    | .falseE => if maxGt12 j ∧ gf.getD j "" = "mm" then gf.set j "dd" else gf
    | _ =>
      if maxGt12 j ∧ gf.getD j "" ≠ "YY" ∧ gf.getD j "" ≠ "YYYY" then gf.set j "YY"
      else gf) acc.guessedFormat
  let gf :=
    if gf.length = 3 ∧ gf.getD 1 "" = "dd" ∧ gf.getD 2 "" = "dd" then gf.set 2 "YY"
    else gf
  String.intercalate "/" gf

/-- `DataConverter#deduceDateFormat(data, limit, save)`; with `save` the
deduced format is stored in the instance options (the only place the stored
date format is mutated). -/
def deduceDateFormatS (c : DataConverter) (data : List String)
    (limit : Option Nat) (save : Bool) : String × DataConverter :=
  let lim :=
    match limit with
    | some l => if l = 0 ∨ l > data.length then data.length else l
    | none => data.length
  let init : DeduceAcc :=
    { stable := [.unset, .unset, .unset], maxv := [none, none, none],
      guessedFormat := [], madeDeduction := false }
  let acc := (data.take lim).foldl deduceSampleStep init
  let format := if acc.madeDeduction then deduceRepair acc else "YYYY/mm/dd"
  (format,
   if save then { c with options := { c.options with dateFormat := format } } else c)

/-! ## DataParser (`src/ts/Data/Parsers/DataParser.ts`) -/

/-- JS `arr[i] = v` on a dense array model: assigning at or beyond the length
fills the gap with `undefined` holes (which read back as `absent`). -/
def jsArraySet (l : List CellValue) (i : Nat) (v : CellValue) : List CellValue :=
  if i < l.length then l.set i v
  else l ++ List.replicate (i - l.length) .absent ++ [v]

/-- `while (arr.length - 1 < rowIndex) arr.push(void 0)`: pad with `undefined`
up to length `n`. -/
def jsPadTo (l : List CellValue) (n : Nat) : List CellValue :=
  l ++ List.replicate (n - l.length) .absent

/-- The body of the cell loop of `getColumnsFromTable` for one cell name:
a missing column is created (padded with `undefined` for the previous rows),
then position `rowIndex` of the column receives the cell value. -/
def processCell (rowIndex : Nat) (row : DataTableRow)
    (acc : List (String × List CellValue)) (cellName : String) :
    List (String × List CellValue) :=
  let acc :=
    if (alookup cellName acc).isSome then acc
    else acc ++ [(cellName, List.replicate rowIndex .absent)]
  acc.map (fun p =>
    if p.1 = cellName then (p.1, jsArraySet p.2 rowIndex (row.getCell cellName)) else p)

/-- The body of the row loop of `getColumnsFromTable`: push the row id onto
the `id` column, process every cell, then pad all columns to the new row
count. -/
def processRow (acc : List (String × List CellValue)) (rowIndex : Nat)
    (row : DataTableRow) : List (String × List CellValue) :=
  let acc := acc.map (fun p =>
    if p.1 = "id" then (p.1, p.2 ++ [CellValue.strV row.id]) else p)
  let acc := row.getCellNames.foldl (processCell rowIndex row) acc
  acc.map (fun p => (p.1, jsPadTo p.2 (rowIndex + 1)))

/-- The row loop of `getColumnsFromTable`, indexed from `k`. -/
def columnsRecordAux (k : Nat) (acc : List (String × List CellValue)) :
    List DataTableRow → List (String × List CellValue)
  | [] => acc
  | r :: rs => columnsRecordAux (k + 1) (processRow acc k r) rs

/-- The `columnsObject` built by `getColumnsFromTable` (and, spec-modelled,
by `DataTable#toColumns`): the `id` column first, then one column per cell
name in row-scan discovery order. -/
def columnsRecord (t : DataTable) : List (String × List CellValue) :=
  columnsRecordAux 0 [("id", [])] t.rows

/-- Modelled from the spec: `DataTable#toColumns` (not among the provided
sources) returns the record of named columns — the id column first, then one
column per distinct cell key in row-scan order, padded with absent values
(spec section 4.3); it is the named form of `getColumnsFromTable`'s
`columnsObject`. -/
def DataTable.toColumns (t : DataTable) : List (String × List CellValue) :=
  columnsRecord t

/-- A comparator as returned by the presentation state's `getColumnSorter`
(spec-modelled, spec section 4.2): columns with an assigned index sort by
index; columns without one sort after all of them. -/
def presentationComparator (order : List String) (a b : String) : Int :=
  let idx : String → Int := fun s =>
    match order.indexOf? s with
    | some i => (i : Int)
    | none => (order.length : Int)
  if idx a < idx b then -1 else if idx b < idx a then 1 else 0

/-- Stable comparator sort (JS `Array#sort` with a consistent comparator is
stable per ES2019): insert each element after existing comparator-equal
ones. -/
def jsInsertSorted (cmp : α → α → Int) (x : α) : List α → List α
  | [] => [x]
  | y :: ys => if cmp x y < 0 then x :: y :: ys else y :: jsInsertSorted cmp x ys

/-- Stable sort by a comparator. -/
def jsSortStable (cmp : α → α → Int) (l : List α) : List α :=
  l.foldl (fun acc x => jsInsertSorted cmp x acc) []

namespace DataParser

/-- `DataParser.getColumnsFromTable(table, usePresentationOrder)`: the column
value arrays of the `columnsObject` (names are dropped), optionally with the
names sorted by the presentation comparator first. -/
def getColumnsFromTable (t : DataTable) (usePresentationOrder : Bool) :
    List (List CellValue) :=
  let record := columnsRecord t
  let names := record.map Prod.fst
  let names :=
    if usePresentationOrder then
      jsSortStable (presentationComparator t.presentation) names
    else names
  names.map (fun n => (alookup n record).getD [])

/-- `DataParser.getTableFromColumns(columns, headers)`, with the unique-key
counter threaded explicitly.  Missing header names are generated; one row is
built per index of the **first** column; each row draws a generated id. -/
def getTableFromColumns (columns : List (List CellValue))
    (headers0 : List String) (ctr0 : Nat) : DataTable × Nat :=
  let columnsLength := columns.length
  let need := columnsLength - headers0.length
  let headers := headers0 ++ (List.range need).map (fun i => uniqueKey (ctr0 + i))
  let ctr1 := ctr0 + need
  let table0 : DataTable := { rows := [], presentation := headers }
  if columnsLength = 0 then (table0, ctr1)
  else
    (List.range (columns.headD []).length).foldl
      (fun st i =>
        let rowStart : DataTableRow := { id := uniqueKey st.2, cells := [] }
        let row := (List.range columnsLength).foldl
          (fun r j =>
            r.insertCell (headers.getD j "") ((columns.getD j []).getD i .absent)) rowStart
        (st.1.insertRow row, st.2 + 1))
      (table0, ctr1)

/-- A point of `SeriesOptions#data`: positional array, structured object, or
bare primitive. -/
inductive SeriesPoint where
  | arrP (vals : List CellValue)
  | objP (fields : List (String × CellValue))
  | primP (v : CellValue)
  deriving DecidableEq, Repr

/-- The slice of `SeriesOptions` the parser reads (`type` and `data`). -/
structure SeriesOptions where
  type : Option String := none
  data : List SeriesPoint := []
  deriving DecidableEq, Repr

/-- JS object-literal key assignment: an existing key keeps its position and
is overwritten, a new key is appended. -/
def jsObjInsert (l : List (String × CellValue)) (key : String) (v : CellValue) :
    List (String × CellValue) :=
  if (alookup key l).isSome then l.map (fun p => if p.1 = key then (p.1, v) else p)
  else l ++ [(key, v)]

/-- `DataParser.getSeriesOptionsFromTable(table)`: one object point per row,
starting with the row id, then one field per cell in cell order. -/
def getSeriesOptionsFromTable (t : DataTable) : SeriesOptions :=
  { type := none
    data := t.rows.map (fun row =>
      .objP (row.getCellNames.foldl
        (fun fields name => jsObjInsert fields name (row.getCell name))
        [("id", .strV row.id)])) }

/-- `pointArrayMap[j] || fallback`: the empty string is falsy. -/
def pamGet (pam : List String) (j : Nat) (fallback : String) : String :=
  match pam.getD j "" with
  | "" => fallback
  | s => s

/-- `DataParser.getTableFromSeriesOptions(seriesOptions, pointArrayMap)`, with
the unique-key counter threaded explicitly.  The series registry consulted
when no map is given is external state, modelled as empty (no registered
series types), after which the map defaults to `['x','y']`. -/
def getTableFromSeriesOptions (so : SeriesOptions) (pointArrayMap : List String)
    (ctr0 : Nat) : DataTable × Nat :=
  let pam := if pointArrayMap.isEmpty then ["x", "y"] else pointArrayMap
  so.data.enum.foldl
    (fun st p =>
      match p.2 with
      | .arrP vals =>
        let pointOptions := vals.enum.foldl
          (fun fields q =>
            jsObjInsert fields (pamGet pam q.1 (toString q.1)) q.2) []
        let rc := mkDataTableRow pointOptions st.2
        (st.1.insertRow rc.1, rc.2)
      | .objP fields =>
        let rc := mkDataTableRow fields st.2
        (st.1.insertRow rc.1, rc.2)
      | .primP v =>
        let rc := mkDataTableRow
          (jsObjInsert (jsObjInsert [] (pamGet pam 0 "x") (.numV p.1))
            (pamGet pam 1 "y") v) st.2
        (st.1.insertRow rc.1, rc.2))
    (({ rows := [], presentation := [] } : DataTable), ctr0)

end DataParser

/-! ## DataStore (`src/js/Data/Stores/DataStore.js`) -/

/-- Column metadata (`DataStore.MetaColumn`): the fields the store logic
reads. -/
structure MetaColumn where
  index : Option Nat := none
  deriving DecidableEq, Repr

/-- `merge(columns[name] || {}, columnMeta)`: fields defined on the update
override, undefined fields keep the old value. -/
def MetaColumn.mergeWith (old new : MetaColumn) : MetaColumn :=
  { index := new.index.orElse (fun _ => old.index) }

/-- The store state: its table and the column metadata record. -/
structure DataStore where
  table : DataTable
  metadata : List (String × MetaColumn)
  deriving DecidableEq, Repr

namespace DataStore

/-- `DataStore#describeColumn(name, columnMeta)`: merge into the existing
metadata entry, creating it at the end of the record when absent. -/
def describeColumn (store : DataStore) (name : String) (meta : MetaColumn) :
    DataStore :=
  match alookup name store.metadata with
  | some old =>
    { store with metadata :=
        store.metadata.map (fun p =>
          if p.1 = name then (p.1, old.mergeWith meta) else p) }
  | none => { store with metadata := store.metadata ++ [(name, meta)] }

/-- `DataStore#setColumnOrder(columnNames)`: assign sequential indices. -/
def setColumnOrder (store : DataStore) (columnNames : List String) : DataStore :=
  columnNames.enum.foldl
    (fun st p => st.describeColumn p.2 { index := some p.1 }) store

/-- JS sparse-array assignment used by `getColumnOrder`:
`columnOrder[pick(index, i)] = columnName` (holes are `none`). -/
def jsArraySetS (l : List (Option String)) (i : Nat) (v : String) :
    List (Option String) :=
  if i < l.length then l.set i (some v)
  else l ++ List.replicate (i - l.length) none ++ [some v]

/-- `DataStore#getColumnOrder()`: a name at position `index` (or discovery
position when unindexed); unassigned positions are holes. -/
def getColumnOrder (store : DataStore) : List (Option String) :=
  store.metadata.enum.foldl
    (fun arr p => jsArraySetS arr (p.2.2.index.getD p.1) p.2.1) []

/-- `Array#indexOf` on the (possibly sparse) order array: holes never equal a
string; `-1` when absent. -/
def jsIndexOf (l : List (Option String)) (s : String) : Int :=
  match l.indexOf? (some s) with
  | some i => (i : Int)
  | none => -1

/-- `DataStore#getColumnsForExport(includeIdColumn)`: table columns, `id`
dropped unless requested (the record's first key), names sorted by descending
position in the reversed stored order — i.e. ascending stored order — and
values realigned to the sorted names. -/
def getColumnsForExport (store : DataStore) (includeIdColumn : Bool) :
    List String × List (List CellValue) :=
  let columnsRecord := store.table.toColumns
  let columnNames :=
    if includeIdColumn then columnsRecord.map Prod.fst
    else (columnsRecord.map Prod.fst).drop 1
  let columnOrder := (getColumnOrder store).reverse
  let cmp : String → String → Int := fun a b =>
    if jsIndexOf columnOrder a < jsIndexOf columnOrder b then 1
    else if jsIndexOf columnOrder a > jsIndexOf columnOrder b then -1
    else 0
  let columnNames :=
    if columnOrder.length ≠ 0 then jsSortStable cmp columnNames else columnNames
  (columnNames, columnNames.map (fun n => (alookup n columnsRecord).getD []))

end DataStore

/-! ## Concrete instances used by the verified properties -/

/-- A converter with default options and no custom parse function. -/
def defaultConverter : DataConverter := mkDataConverter {} none

/-- A converter configured with decimal point `','`. -/
def commaConverter : DataConverter :=
  mkDataConverter { decimalPoint := some "," } none

/-- Series options holding the single positional point `[3, 7]`. -/
def seriesPoint37 : DataParser.SeriesOptions :=
  { data := [.arrP [.numV 3, .numV 7]] }

/-- A table whose columns are inserted in the order `c`, `a`, `b`. -/
def tableCab : DataTable :=
  (DataParser.getTableFromColumns [[.numV 1], [.numV 2], [.numV 3]]
    ["c", "a", "b"] 0).1

/-- A store over `tableCab` after `setColumnOrder(['a','b','c'])`. -/
def storeCab : DataStore :=
  DataStore.setColumnOrder { table := tableCab, metadata := [] } ["a", "b", "c"]

/-- A one-row table with a single named cell. -/
def tOneRow : DataTable :=
  { rows := [{ id := "r1", cells := [("a", .numV 1)] }], presentation := [] }

/-! ## Proof-support definitions -/

/-- Dummy row used for out-of-range `getD` access in specifications. -/
def emptyRow : DataTableRow := { id := "", cells := [] }

/-- Invariant of the row scan of `getColumnsFromTable` after processing the
row prefix `pre`: every column has exactly one slot per processed row, the
column names are distinct, and a non-id column holds the absent value at
every position whose row lacks that cell. -/
def RecInv (pre : List DataTableRow) (acc : List (String × List CellValue)) :
    Prop :=
  (∀ p ∈ acc, (p.2 : List CellValue).length = pre.length) ∧
  (acc.map Prod.fst).Nodup ∧
  (∀ p ∈ acc, p.1 ≠ "id" →
    ∀ i, i < pre.length → p.1 ∉ (pre.getD i emptyRow).getCellNames →
      p.2.getD i .absent = .absent)

/-- Invariant holding during the cell loop of row number `pre.length` (row
`r`): columns are one slot short or already extended, names stay distinct,
prefix positions keep the absent-padding property, and a non-id column whose
name the current row lacks is still unextended. -/
def MidInv (pre : List DataTableRow) (r : DataTableRow)
    (acc : List (String × List CellValue)) : Prop :=
  (∀ p ∈ acc, p.2.length = pre.length ∨ p.2.length = pre.length + 1) ∧
  (acc.map Prod.fst).Nodup ∧
  (∀ p ∈ acc, p.1 ≠ "id" →
    ∀ i, i < pre.length → p.1 ∉ (pre.getD i emptyRow).getCellNames →
      p.2.getD i .absent = .absent) ∧
  (∀ p ∈ acc, p.1 ≠ "id" → p.1 ∉ r.getCellNames → p.2.length = pre.length)

/-- The rows appended by the row loop of `getTableFromColumns`, one per index,
with the unique-key counter advancing by one per row. -/
def buildListG (rowOf : Nat → Nat → DataTableRow) : Nat → List Nat →
    List DataTableRow
  | _, [] => []
  | c, i :: is => rowOf c i :: buildListG rowOf (c + 1) is

/-- The header list of `getTableFromColumns` after generating the missing
names. -/
def fullHeaders (columns : List (List CellValue)) (headers0 : List String)
    (ctr0 : Nat) : List String :=
  headers0 ++ (List.range (columns.length - headers0.length)).map
    (fun i => uniqueKey (ctr0 + i))

/-- The row built by one iteration of the row loop of `getTableFromColumns`
(counter `cc`, row index `i`). -/
def builtRow (columns : List (List CellValue)) (headers : List String)
    (cc i : Nat) : DataTableRow :=
  (List.range columns.length).foldl
    (fun r j => r.insertCell (headers.getD j "") ((columns.getD j []).getD i .absent))
    { id := uniqueKey cc, cells := [] }

/-! ## Shared lemmas -/

/-- `parseDate` assigns no instance field: the threaded state is returned
unchanged (the memoization assignment in the source is commented out). -/
theorem parseDateS_snd (c : DataConverter) (v : String) (f : Option String) :
    (parseDateS c v f).2 = c := by
  unfold parseDateS
  cases c.parseDateFn <;> rfl

/-- The generated unique keys are pairwise distinct. -/
theorem uniqueKey_inj {m n : Nat} (h : uniqueKey m = uniqueKey n) : m = n := by
  have h2 : (uniqueKey m).data.length = (uniqueKey n).data.length := by rw [h]
  simpa [uniqueKey] using h2

/-- A generated unique key is never the reserved name `"id"`. -/
theorem uniqueKey_ne_id (n : Nat) : uniqueKey n ≠ "id" := by
  intro h
  have h2 : (uniqueKey n).data.length = ("id" : String).data.length := by rw [h]
  simp [uniqueKey] at h2

theorem alookup_eq_none {α : Type} {key : String} {l : List (String × α)} :
    alookup key l = none ↔ key ∉ l.map Prod.fst := by
  induction l with
  | nil => simp [alookup]
  | cons p rest ih =>
    simp only [alookup, List.map_cons, List.mem_cons]
    by_cases h : p.1 = key
    · simp [h]
    · simp only [if_neg h, ih]
      constructor
      · rintro hk (he | hm)
        · exact h he.symm
        · exact hk hm
      · exact fun hk hm => hk (Or.inr hm)

theorem alookup_isSome_of_mem {α : Type} {key : String} {l : List (String × α)}
    (h : key ∈ l.map Prod.fst) : (alookup key l).isSome := by
  cases ha : alookup key l with
  | none => exact absurd (alookup_eq_none.mp ha) (by simpa using h)
  | some v => rfl

theorem alookup_of_mem_nodup {α : Type} {key : String} {v : α}
    {l : List (String × α)} (hnd : (l.map Prod.fst).Nodup)
    (hmem : (key, v) ∈ l) : alookup key l = some v := by
  induction l with
  | nil => simp at hmem
  | cons p rest ih =>
    rcases List.mem_cons.mp hmem with h | h
    · subst h; simp [alookup]
    · rw [List.map_cons] at hnd
      have hnd' := List.nodup_cons.mp hnd
      have hne : p.1 ≠ key := by
        intro he
        have hk : key ∈ rest.map Prod.fst :=
          List.mem_map.mpr ⟨(key, v), h, rfl⟩
        exact hnd'.1 (by rw [he]; exact hk)
      simpa [alookup, hne] using ih hnd'.2 h

/-- Updating values in place preserves the key list. -/
theorem map_fst_of_fst_preserving {β : Type} (l : List (String × β))
    (F : String × β → String × β) (h : ∀ p, (F p).1 = p.1) :
    (l.map F).map Prod.fst = l.map Prod.fst := by
  rw [List.map_map]
  exact List.map_congr_left fun p _ => h p

theorem jsArraySet_length {l : List CellValue} {k : Nat} (v : CellValue)
    (h : l.length = k ∨ l.length = k + 1) :
    (jsArraySet l k v).length = k + 1 := by
  rcases h with h | h
  · simp [jsArraySet, h]
  · simp [jsArraySet, h]

theorem jsArraySet_eq_append {l : List CellValue} {k : Nat} (v : CellValue)
    (h : l.length = k) : jsArraySet l k v = l ++ [v] := by
  simp [jsArraySet, h]

theorem jsArraySet_getD_lt {l : List CellValue} {i k : Nat} (v : CellValue)
    (h : i < k) : (jsArraySet l k v).getD i .absent = l.getD i .absent := by
  unfold jsArraySet
  by_cases hk : k < l.length
  · simp only [if_pos hk, List.getD_eq_getElem?_getD,
      List.getElem?_set_ne (Nat.ne_of_gt h)]
  · simp only [if_neg hk]
    have hll : l.length ≤ k := Nat.le_of_not_lt hk
    by_cases hi : i < l.length
    · have hb1 : i < (l ++ List.replicate (k - l.length)
          CellValue.absent).length := by
        simp only [List.length_append, List.length_replicate]
        omega
      rw [List.getD_append _ _ _ _ hb1, List.getD_append _ _ _ _ hi]
    · have hi' : l.length ≤ i := Nat.le_of_not_lt hi
      rw [List.getD_eq_getElem?_getD, List.getD_eq_getElem?_getD,
        List.getElem?_append]
      have houter : i < (l ++ List.replicate (k - l.length)
          CellValue.absent).length := by
        simp only [List.length_append, List.length_replicate]
        omega
      rw [if_pos houter, List.getElem?_append, if_neg hi,
        List.getElem?_replicate, List.getElem?_eq_none hi']
      have h2 : i - l.length < k - l.length := by omega
      simp [h2]

theorem jsPadTo_eq_self {l : List CellValue} {n : Nat} (h : l.length = n) :
    jsPadTo l n = l := by
  simp [jsPadTo, h]

theorem jsPadTo_length {l : List CellValue} {n : Nat} (h : l.length ≤ n) :
    (jsPadTo l n).length = n := by
  simp [jsPadTo]
  omega

theorem jsPadTo_eq_append {l : List CellValue} {k : Nat} (h : l.length = k) :
    jsPadTo l (k + 1) = l ++ [.absent] := by
  simp [jsPadTo, h]

theorem jsPadTo_getD (l : List CellValue) (n i : Nat) :
    (jsPadTo l n).getD i .absent = l.getD i .absent := by
  unfold jsPadTo
  by_cases hi : i < l.length
  · rw [List.getD_append _ _ _ _ hi]
  · rw [List.getD_eq_getElem?_getD, List.getD_eq_getElem?_getD,
      List.getElem?_append, if_neg hi, List.getElem?_replicate,
      List.getElem?_eq_none (Nat.le_of_not_lt hi)]
    by_cases h2 : i - l.length < n - l.length <;> simp [h2]

/-- The cell names of a literal row. -/
theorem getCellNames_mk (i : String) (cs : List (String × CellValue)) :
    (DataTableRow.mk i cs).getCellNames = cs.map Prod.fst := rfl

/-- The id of a row is untouched by a fold of `insertCell` steps. -/
theorem foldl_insertCell_id (pairs : List (String × CellValue))
    (r : DataTableRow) :
    (pairs.foldl (fun row p => row.insertCell p.1 p.2) r).id = r.id := by
  induction pairs generalizing r with
  | nil => rfl
  | cons p rest ih =>
    rw [List.foldl_cons, ih]
    unfold DataTableRow.insertCell
    by_cases h : p.1 ∈ r.getCellNames <;> simp [h]

/-- A fold of `insertCell` steps over pairwise-distinct fresh names appends
them all. -/
theorem foldl_insertCell_cells (pairs : List (String × CellValue))
    (r : DataTableRow) (hnd : (pairs.map Prod.fst).Nodup)
    (hfresh : ∀ n ∈ pairs.map Prod.fst, n ∉ r.getCellNames) :
    pairs.foldl (fun row p => row.insertCell p.1 p.2) r
      = { r with cells := r.cells ++ pairs } := by
  induction pairs generalizing r with
  | nil => simp
  | cons p rest ih =>
    rw [List.foldl_cons]
    have hp : p.1 ∉ r.getCellNames := hfresh p.1 (by simp)
    have hstep : r.insertCell p.1 p.2 = { r with cells := r.cells ++ [p] } := by
      unfold DataTableRow.insertCell
      simp [hp]
    rw [hstep]
    rw [List.map_cons] at hnd
    have hnd' := List.nodup_cons.mp hnd
    have hfresh' : ∀ n ∈ rest.map Prod.fst,
        n ∉ ({ r with cells := r.cells ++ [p] } : DataTableRow).getCellNames := by
      intro n hn
      have hne : n ≠ p.1 := by
        intro he
        exact hnd'.1 (he ▸ hn)
      have hnr : n ∉ r.getCellNames := hfresh n (by simp [hn])
      have hnames : ({ r with cells := r.cells ++ [p] } :
          DataTableRow).getCellNames = r.getCellNames ++ [p.1] := by
        simp [DataTableRow.getCellNames]
      rw [hnames]
      intro hmem
      rcases List.mem_append.mp hmem with hmem | hmem
      · exact hnr hmem
      · exact hne (List.mem_singleton.mp hmem)
    rw [ih _ hnd'.2 hfresh']
    simp

/-- Reading a list of length `n` back index by index reproduces it. -/
theorem map_range_getD {α : Type} (l : List α) (d : α) :
    (List.range l.length).map (fun i => l.getD i d) = l := by
  induction l with
  | nil => simp
  | cons a as ih =>
    rw [List.length_cons, List.range_succ_eq_map, List.map_cons, List.map_map]
    have h2 : (List.range as.length).map
          ((fun i => (a :: as).getD i d) ∘ Nat.succ)
        = (List.range as.length).map (fun i => as.getD i d) :=
      List.map_congr_left fun i _ => by simp
    rw [List.getD_cons_zero, h2, ih]

theorem getD_replicate_undef (k i : Nat) :
    (List.replicate k CellValue.absent).getD i .absent = .absent := by
  rw [List.getD_eq_getElem?_getD, List.getElem?_replicate]
  by_cases h : i < k <;> simp [h]

theorem getD_append_length {α : Type} (l : List α) (x d : α) :
    (l ++ [x]).getD l.length d = x := by
  rw [List.getD_eq_getElem?_getD, List.getElem?_append,
    if_neg (Nat.lt_irrefl _)]
  simp

/-! ## Row-scan invariant of getColumnsFromTable -/

theorem midInv_update (pre : List DataTableRow) (r : DataTableRow)
    (acc : List (String × List CellValue)) (n : String)
    (hmem : n ∈ r.getCellNames) (hinv : MidInv pre r acc) :
    MidInv pre r (acc.map (fun p =>
      if p.1 = n then (p.1, jsArraySet p.2 pre.length (r.getCell n)) else p)) := by
  obtain ⟨h1, h2, h3, h4⟩ := hinv
  refine ⟨?_, ?_, ?_, ?_⟩
  · intro p hp
    obtain ⟨q, hq, hpq⟩ := List.mem_map.mp hp
    by_cases hqn : q.1 = n
    · rw [← hpq, if_pos hqn]
      exact Or.inr (jsArraySet_length _ (h1 q hq))
    · rw [← hpq, if_neg hqn]
      exact h1 q hq
  · rw [map_fst_of_fst_preserving]
    · exact h2
    · intro p
      by_cases hqn : p.1 = n <;> simp [hqn]
  · intro p hp hpid i hi hno
    obtain ⟨q, hq, hpq⟩ := List.mem_map.mp hp
    by_cases hqn : q.1 = n
    · rw [← hpq, if_pos hqn] at hno ⊢
      rw [jsArraySet_getD_lt _ hi]
      exact h3 q hq (by rw [← hpq, if_pos hqn] at hpid; exact hpid) i hi hno
    · rw [← hpq, if_neg hqn] at hno hpid ⊢
      exact h3 q hq hpid i hi hno
  · intro p hp hpid hno
    obtain ⟨q, hq, hpq⟩ := List.mem_map.mp hp
    by_cases hqn : q.1 = n
    · exfalso
      rw [← hpq, if_pos hqn] at hno
      exact hno (hqn ▸ hmem)
    · rw [← hpq, if_neg hqn] at hno hpid ⊢
      exact h4 q hq hpid hno

theorem midInv_extend (pre : List DataTableRow) (r : DataTableRow)
    (acc : List (String × List CellValue)) (n : String)
    (hmem : n ∈ r.getCellNames) (hnone : alookup n acc = none)
    (hinv : MidInv pre r acc) :
    MidInv pre r (acc ++ [(n, List.replicate pre.length .absent)]) := by
  obtain ⟨h1, h2, h3, h4⟩ := hinv
  have hnk : n ∉ acc.map Prod.fst := alookup_eq_none.mp hnone
  refine ⟨?_, ?_, ?_, ?_⟩
  · intro p hp
    rcases List.mem_append.mp hp with hp | hp
    · exact h1 p hp
    · rw [List.mem_singleton.mp hp]
      exact Or.inl (by simp)
  · rw [List.map_append]
    simp only [List.map_cons, List.map_nil]
    rw [List.nodup_append]
    exact ⟨h2, List.nodup_singleton n, by simpa using hnk⟩
  · intro p hp hpid i hi hno
    rcases List.mem_append.mp hp with hp | hp
    · exact h3 p hp hpid i hi hno
    · rw [List.mem_singleton.mp hp]
      exact getD_replicate_undef _ _
  · intro p hp hpid hno
    rcases List.mem_append.mp hp with hp | hp
    · exact h4 p hp hpid hno
    · exfalso
      rw [List.mem_singleton.mp hp] at hno
      exact hno hmem

theorem midInv_processCell (pre : List DataTableRow) (r : DataTableRow)
    (acc : List (String × List CellValue)) (n : String)
    (hmem : n ∈ r.getCellNames) (hinv : MidInv pre r acc) :
    MidInv pre r (processCell pre.length r acc n) := by
  unfold processCell
  cases hl : alookup n acc with
  | some v =>
    simp only [hl, Option.isSome_some, if_pos]
    exact midInv_update pre r acc n hmem hinv
  | none =>
    simp only [hl, Option.isSome_none, Bool.false_eq_true, if_neg,
      not_false_eq_true]
    exact midInv_update pre r _ n hmem (midInv_extend pre r acc n hmem hl hinv)

theorem midInv_fold (pre : List DataTableRow) (r : DataTableRow)
    (ns : List String) (hns : ∀ n ∈ ns, n ∈ r.getCellNames) :
    ∀ (acc : List (String × List CellValue)), MidInv pre r acc →
      MidInv pre r (ns.foldl (processCell pre.length r) acc) := by
  induction ns with
  | nil => exact fun acc h => h
  | cons n rest ih =>
    intro acc hinv
    rw [List.foldl_cons]
    exact ih (fun m hm => hns m (by simp [hm]))
      _ (midInv_processCell pre r acc n (hns n (by simp)) hinv)

theorem midInv_start (pre : List DataTableRow) (r : DataTableRow)
    (acc : List (String × List CellValue)) (hinv : RecInv pre acc) :
    MidInv pre r (acc.map (fun p =>
      if p.1 = "id" then (p.1, p.2 ++ [CellValue.strV r.id]) else p)) := by
  obtain ⟨h1, h2, h3⟩ := hinv
  refine ⟨?_, ?_, ?_, ?_⟩
  · intro p hp
    obtain ⟨q, hq, hpq⟩ := List.mem_map.mp hp
    by_cases hqn : q.1 = "id"
    · rw [← hpq, if_pos hqn]
      right
      simp [h1 q hq]
    · rw [← hpq, if_neg hqn]
      exact Or.inl (h1 q hq)
  · rw [map_fst_of_fst_preserving]
    · exact h2
    · intro p
      by_cases hqn : p.1 = "id" <;> simp [hqn]
  · intro p hp hpid i hi hno
    obtain ⟨q, hq, hpq⟩ := List.mem_map.mp hp
    by_cases hqn : q.1 = "id"
    · exfalso
      rw [← hpq, if_pos hqn] at hpid
      exact hpid hqn
    · rw [← hpq, if_neg hqn] at hpid hno ⊢
      exact h3 q hq hpid i hi hno
  · intro p hp hpid _
    obtain ⟨q, hq, hpq⟩ := List.mem_map.mp hp
    by_cases hqn : q.1 = "id"
    · exfalso
      rw [← hpq, if_pos hqn] at hpid
      exact hpid hqn
    · rw [← hpq, if_neg hqn]
      exact h1 q hq

theorem recInv_processRow (pre : List DataTableRow) (r : DataTableRow)
    (acc : List (String × List CellValue)) (hinv : RecInv pre acc) :
    RecInv (pre ++ [r]) (processRow acc pre.length r) := by
  unfold processRow
  have hmid : MidInv pre r
      (r.getCellNames.foldl (processCell pre.length r)
        (acc.map (fun p =>
          if p.1 = "id" then (p.1, p.2 ++ [CellValue.strV r.id]) else p))) :=
    midInv_fold pre r r.getCellNames (fun _ h => h) _
      (midInv_start pre r acc hinv)
  obtain ⟨m1, m2, m3, m4⟩ := hmid
  refine ⟨?_, ?_, ?_⟩
  · intro p hp
    obtain ⟨q, hq, hpq⟩ := List.mem_map.mp hp
    rw [← hpq]
    have : (jsPadTo q.2 (pre.length + 1)).length = pre.length + 1 := by
      apply jsPadTo_length
      rcases m1 q hq with h | h <;> omega
    simpa using this
  · rw [map_fst_of_fst_preserving]
    · exact m2
    · intro p; rfl
  · intro p hp hpid i hi hno
    obtain ⟨q, hq, hpq⟩ := List.mem_map.mp hp
    have hq1 : q.1 = p.1 := by rw [← hpq]
    rw [← hpq]
    simp only
    by_cases hik : i < pre.length
    · rw [jsPadTo_getD]
      have hpre : (pre ++ [r]).getD i emptyRow = pre.getD i emptyRow :=
        List.getD_append _ _ _ _ hik
      rw [hpre] at hno
      exact m3 q hq (by rw [hq1]; exact hpid) i hik (by rw [hq1]; exact hno)
    · have hieq : i = pre.length := by
        rw [List.length_append] at hi
        simp at hi
        omega
      subst hieq
      have hrow : (pre ++ [r]).getD pre.length emptyRow = r :=
        getD_append_length _ _ _
      rw [hrow] at hno
      have hlen : q.2.length = pre.length :=
        m4 q hq (by rw [hq1]; exact hpid) (by rw [hq1]; exact hno)
      rw [jsPadTo_eq_append hlen]
      rw [← hlen]
      exact getD_append_length _ _ _

theorem recInv_aux (l : List DataTableRow) :
    ∀ (pre : List DataTableRow) (acc : List (String × List CellValue)),
      RecInv pre acc → RecInv (pre ++ l) (columnsRecordAux pre.length acc l) := by
  induction l with
  | nil =>
    intro pre acc h
    simpa [columnsRecordAux] using h
  | cons r rs ih =>
    intro pre acc h
    have h2 := ih (pre ++ [r]) (processRow acc pre.length r)
      (recInv_processRow pre r acc h)
    rw [List.length_append] at h2
    simp only [List.length_singleton] at h2
    rw [List.append_assoc] at h2
    simpa [columnsRecordAux] using h2

theorem recInv_columnsRecord (t : DataTable) :
    RecInv t.rows (columnsRecord t) := by
  have h0 : RecInv [] [("id", ([] : List CellValue))] := by
    refine ⟨by simp, by simp, by simp⟩
  have h := recInv_aux t.rows [] [("id", [])] h0
  simpa [columnsRecord] using h

/-- With pairwise-distinct keys, reading every key back from an association
list reproduces its values. -/
theorem map_alookup_of_nodup {α : Type} (l : List (String × α)) (d : α)
    (hnd : (l.map Prod.fst).Nodup) :
    (l.map Prod.fst).map (fun n => (alookup n l).getD d) = l.map Prod.snd := by
  induction l with
  | nil => simp
  | cons p rest ih =>
    rw [List.map_cons] at hnd
    have hnd' := List.nodup_cons.mp hnd
    simp only [List.map_cons]
    have hhead : (alookup p.1 (p :: rest)).getD d = p.2 := by
      simp [alookup]
    rw [hhead]
    have htail : (rest.map Prod.fst).map
          (fun n => (alookup n (p :: rest)).getD d)
        = (rest.map Prod.fst).map (fun n => (alookup n rest).getD d) := by
      apply List.map_congr_left
      intro n hn
      have hne : p.1 ≠ n := fun he => hnd'.1 (he ▸ hn)
      simp [alookup, hne]
    rw [htail, ih hnd'.2]

theorem getColumnsFromTable_eq_map_snd (t : DataTable) :
    DataParser.getColumnsFromTable t false = (columnsRecord t).map Prod.snd := by
  unfold DataParser.getColumnsFromTable
  simp only [Bool.false_eq_true, if_neg, not_false_eq_true]
  exact map_alookup_of_nodup _ _ (recInv_columnsRecord t).2.1

/-! ## C6 -/

/-- C6: every column array produced by `getColumnsFromTable` has length equal
to the table's row count, and every non-id column of the scan's column record
holds the absent value (`absent`) at each position whose row lacks that
cell. -/
theorem getColumnsFromTable_length_padding (t : DataTable) :
    (∀ col ∈ DataParser.getColumnsFromTable t false,
      col.length = t.rows.length) ∧
    (∀ p ∈ columnsRecord t, p.1 ≠ "id" →
      ∀ i, i < t.rows.length →
        p.1 ∉ (t.rows.getD i emptyRow).getCellNames →
          p.2.getD i .absent = CellValue.absent) := by
  obtain ⟨h1, _, h3⟩ := recInv_columnsRecord t
  constructor
  · intro col hcol
    rw [getColumnsFromTable_eq_map_snd] at hcol
    obtain ⟨p, hp, hcp⟩ := List.mem_map.mp hcol
    rw [← hcp]
    exact h1 p hp
  · exact h3

/-- C6 witness: on a two-row table with disjoint cell sets, the column of
`"b"` has length 2 and holds the absent value at the first row's position. -/
theorem getColumnsFromTable_length_padding_witness :
    ([CellValue.absent, CellValue.numV 2] : List CellValue).length
      = (DataTable.mk [⟨"r1", [("a", .numV 1)]⟩, ⟨"r2", [("b", .numV 2)]⟩]
          []).rows.length ∧
    (("b", [CellValue.absent, CellValue.numV 2]) :
        String × List CellValue).2.getD 0 .absent = CellValue.absent := by
  constructor
  · exact (getColumnsFromTable_length_padding
      (DataTable.mk [⟨"r1", [("a", .numV 1)]⟩, ⟨"r2", [("b", .numV 2)]⟩] [])).1
      [CellValue.absent, CellValue.numV 2] (by decide)
  · exact (getColumnsFromTable_length_padding
      (DataTable.mk [⟨"r1", [("a", .numV 1)]⟩, ⟨"r2", [("b", .numV 2)]⟩] [])).2
      ("b", [CellValue.absent, CellValue.numV 2]) (by decide) (by decide)
      0 (by decide) (by decide)

/-! ## The cell loop on tables with homogeneous rows -/

/-- `processRow` with its let-bindings unfolded. -/
theorem processRow_def (acc : List (String × List CellValue)) (k : Nat)
    (r : DataTableRow) :
    processRow acc k r
      = (r.getCellNames.foldl (processCell k r)
          (acc.map (fun p =>
            if p.1 = "id" then (p.1, p.2 ++ [CellValue.strV r.id]) else p))).map
          (fun p => (p.1, jsPadTo p.2 (k + 1))) := rfl

theorem foldl_processCell_update (k : Nat) (r : DataTableRow)
    (ns : List String) (hnd : ns.Nodup) :
    ∀ (acc : List (String × List CellValue)),
      (∀ n ∈ ns, n ∈ acc.map Prod.fst) →
      ns.foldl (processCell k r) acc
        = acc.map (fun p =>
            if p.1 ∈ ns then (p.1, jsArraySet p.2 k (r.getCell p.1)) else p) := by
  induction ns with
  | nil =>
    intro acc _
    simp
  | cons n rest ih =>
    intro acc hks
    rw [List.foldl_cons]
    have hnd' := List.nodup_cons.mp hnd
    have hnacc : n ∈ acc.map Prod.fst := hks n (by simp)
    have hstep : processCell k r acc n = acc.map (fun p =>
        if p.1 = n then (p.1, jsArraySet p.2 k (r.getCell n)) else p) := by
      unfold processCell
      cases hl : alookup n acc with
      | some v => simp [hl]
      | none => exact absurd (alookup_eq_none.mp hl) (by simpa using hnacc)
    rw [hstep]
    have hkeys : (acc.map (fun p =>
        if p.1 = n then (p.1, jsArraySet p.2 k (r.getCell n)) else p)).map
          Prod.fst = acc.map Prod.fst := by
      apply map_fst_of_fst_preserving
      intro p
      by_cases h : p.1 = n <;> simp [h]
    rw [ih hnd'.2 _ (fun m hm => by rw [hkeys]; exact hks m (by simp [hm]))]
    rw [List.map_map]
    apply List.map_congr_left
    intro p _
    by_cases h1 : p.1 = n
    · have h2 : n ∉ rest := hnd'.1
      simp [Function.comp, h1, h2]
    · by_cases h2 : p.1 ∈ rest <;> simp [Function.comp, h1, h2]

theorem foldl_processCell_fresh (k : Nat) (r : DataTableRow)
    (ns : List String) (hnd : ns.Nodup) :
    ∀ (acc : List (String × List CellValue)),
      (∀ n ∈ ns, n ∉ acc.map Prod.fst) →
      ns.foldl (processCell k r) acc
        = acc ++ ns.map (fun n =>
            (n, jsArraySet (List.replicate k .absent) k (r.getCell n))) := by
  induction ns with
  | nil =>
    intro acc _
    simp
  | cons n rest ih =>
    intro acc hks
    rw [List.foldl_cons]
    have hnd' := List.nodup_cons.mp hnd
    have hnone : alookup n acc = none := alookup_eq_none.mpr (hks n (by simp))
    have hstep : processCell k r acc n
        = acc ++ [(n, jsArraySet (List.replicate k .absent) k (r.getCell n))] := by
      unfold processCell
      simp only [hnone, Option.isSome_none, Bool.false_eq_true, if_neg,
        not_false_eq_true]
      rw [List.map_append]
      have hself : acc.map (fun p =>
          if p.1 = n then (p.1, jsArraySet p.2 k (r.getCell n)) else p) = acc := by
        have h : ∀ p ∈ acc,
            (if p.1 = n then (p.1, jsArraySet p.2 k (r.getCell n)) else p)
              = id p := by
          intro p hp
          have hne : p.1 ≠ n := fun he =>
            hks n (by simp) (List.mem_map.mpr ⟨p, hp, he⟩)
          simp [hne]
        rw [List.map_congr_left h, List.map_id]
      rw [hself]
      simp
    rw [hstep]
    rw [ih hnd'.2 _ ?_]
    · rw [List.append_assoc]
      simp
    · intro m hm
      rw [List.map_append]
      simp only [List.map_cons, List.map_nil]
      intro hmem
      rcases List.mem_append.mp hmem with h | h
      · exact hks m (by simp [hm]) h
      · have : m = n := by simpa using h
        exact hnd'.1 (this ▸ hm)

theorem processRow_homog (hs : List String) (r : DataTableRow) (k : Nat)
    (ids : List CellValue) (vals : String → List CellValue)
    (hr : r.getCellNames = hs) (hnd : hs.Nodup) (hid : "id" ∉ hs)
    (hlid : ids.length = k) (hlv : ∀ h ∈ hs, (vals h).length = k) :
    processRow (("id", ids) :: hs.map (fun h => (h, vals h))) k r
      = ("id", ids ++ [CellValue.strV r.id])
        :: hs.map (fun h => (h, vals h ++ [r.getCell h])) := by
  rw [processRow_def]
  have hpush : (("id", ids) :: hs.map (fun h => (h, vals h))).map (fun p =>
        if p.1 = "id" then (p.1, p.2 ++ [CellValue.strV r.id]) else p)
      = ("id", ids ++ [CellValue.strV r.id]) :: hs.map (fun h => (h, vals h)) := by
    rw [List.map_cons, if_pos rfl]
    congr 1
    rw [List.map_map]
    apply List.map_congr_left
    intro h hh
    have : h ≠ "id" := fun he => hid (he ▸ hh)
    simp [this]
  rw [hpush, hr]
  have hupdate := foldl_processCell_update k r hs hnd
    (("id", ids ++ [CellValue.strV r.id]) :: hs.map (fun h => (h, vals h)))
    ?_
  · rw [hupdate]
    rw [List.map_cons]
    have hidhs : ("id" ∈ hs) = False := by simp [hid]
    simp only [hidhs, if_false]
    rw [List.map_map]
    have hmap : ∀ h ∈ hs, ((fun p =>
          if p.1 ∈ hs then (p.1, jsArraySet p.2 k (r.getCell p.1)) else p) ∘
          (fun h => (h, vals h))) h = (h, vals h ++ [r.getCell h]) := by
      intro h hh
      simp only [Function.comp]
      rw [if_pos (by simpa using hh)]
      rw [jsArraySet_eq_append _ (hlv h hh)]
    rw [List.map_congr_left hmap]
    have hfinal : ∀ p ∈ ("id", ids ++ [CellValue.strV r.id])
          :: hs.map (fun h => (h, vals h ++ [r.getCell h])),
        (fun p : String × List CellValue => (p.1, jsPadTo p.2 (k + 1))) p
          = id p := by
      intro p hp
      rcases List.mem_cons.mp hp with hp | hp
      · rw [hp]
        simp only [id]
        rw [jsPadTo_eq_self (by simp [hlid])]
      · obtain ⟨h, hh, hph⟩ := List.mem_map.mp hp
        rw [← hph]
        simp only [id]
        rw [jsPadTo_eq_self (by simp [hlv h hh])]
    rw [List.map_congr_left hfinal, List.map_id]
  · intro n hn
    rw [List.map_cons, List.map_map]
    right
    have : (Prod.fst ∘ fun h => (h, vals h)) = id := rfl
    rw [this, List.map_id]
    exact hn

theorem columnsRecordAux_homog (hs : List String) (hnd : hs.Nodup)
    (hid : "id" ∉ hs) :
    ∀ (rs : List DataTableRow) (k : Nat) (ids : List CellValue)
      (vals : String → List CellValue),
      (∀ r ∈ rs, r.getCellNames = hs) → ids.length = k →
      (∀ h ∈ hs, (vals h).length = k) →
      columnsRecordAux k (("id", ids) :: hs.map (fun h => (h, vals h))) rs
        = ("id", ids ++ rs.map (fun r => CellValue.strV r.id))
          :: hs.map (fun h => (h, vals h ++ rs.map (fun r => r.getCell h))) := by
  intro rs
  induction rs with
  | nil =>
    intro k ids vals _ _ _
    simp [columnsRecordAux]
  | cons r rest ih =>
    intro k ids vals hrows hlid hlv
    have hstep := processRow_homog hs r k ids vals
      (hrows r (by simp)) hnd hid hlid hlv
    show columnsRecordAux (k + 1)
        (processRow (("id", ids) :: hs.map (fun h => (h, vals h))) k r) rest = _
    rw [hstep]
    rw [ih (k + 1) (ids ++ [CellValue.strV r.id])
      (fun h => vals h ++ [r.getCell h])
      (fun q hq => hrows q (by simp [hq]))
      (by simp [hlid])
      (fun h hh => by simp [hlv h hh])]
    congr 1
    · rw [List.append_assoc]
      simp
    · apply List.map_congr_left
      intro h _
      rw [List.append_assoc]
      simp

theorem processRow_first (hs : List String) (r : DataTableRow)
    (hr : r.getCellNames = hs) (hnd : hs.Nodup) (hid : "id" ∉ hs) :
    processRow [("id", [])] 0 r
      = ("id", [CellValue.strV r.id]) :: hs.map (fun h => (h, [r.getCell h])) := by
  rw [processRow_def]
  have hpush : ([(("id" : String), ([] : List CellValue))]).map (fun p =>
        if p.1 = "id" then (p.1, p.2 ++ [CellValue.strV r.id]) else p)
      = [("id", [CellValue.strV r.id])] := by
    simp
  rw [hpush, hr]
  rw [foldl_processCell_fresh 0 r hs hnd _ ?_]
  · have hcells : ∀ h ∈ hs, (fun n =>
        ((n : String), jsArraySet (List.replicate 0 .absent) 0 (r.getCell n))) h
        = (h, [r.getCell h]) := by
      intro h _
      simp only [List.replicate]
      rw [jsArraySet_eq_append _ (by simp)]
      simp
    rw [List.map_congr_left hcells]
    have hfinal : ∀ p ∈ ("id", [CellValue.strV r.id])
          :: hs.map (fun h => (h, [r.getCell h])),
        (fun p : String × List CellValue => (p.1, jsPadTo p.2 (0 + 1))) p
          = id p := by
      intro p hp
      rcases List.mem_cons.mp hp with hp | hp
      · rw [hp]
        simp only [id]
        rw [jsPadTo_eq_self (by simp)]
      · obtain ⟨h, _, hph⟩ := List.mem_map.mp hp
        rw [← hph]
        simp only [id]
        rw [jsPadTo_eq_self (by simp)]
    rw [List.singleton_append, List.map_congr_left hfinal, List.map_id]
  · intro n hn
    simp only [List.map_cons, List.map_nil, List.mem_singleton]
    intro he
    exact hid (he ▸ hn)

/-! ## The row loop of getTableFromColumns -/

theorem buildListG_length (rowOf : Nat → Nat → DataTableRow) :
    ∀ (idxs : List Nat) (c : Nat),
      (buildListG rowOf c idxs).length = idxs.length := by
  intro idxs
  induction idxs with
  | nil => intro c; rfl
  | cons i is ih =>
    intro c
    simp [buildListG, ih]

theorem insertRow_append (t : DataTable) (row : DataTableRow)
    (h : ∀ r ∈ t.rows, r.id ≠ row.id) :
    t.insertRow row = { t with rows := t.rows ++ [row] } := by
  have hc : ¬ (t.rows.any (fun r => r.id = row.id) = true) := by
    simp only [List.any_eq_true, decide_eq_true_eq]
    rintro ⟨r, hr, he⟩
    exact h r hr he
  unfold DataTable.insertRow
  rw [if_neg hc]

theorem insertRowFold (rowOf : Nat → Nat → DataTableRow)
    (hid : ∀ cc i, (rowOf cc i).id = uniqueKey cc) :
    ∀ (idxs : List Nat) (t : DataTable) (c : Nat),
      (∀ r ∈ t.rows, ∃ j, j < c ∧ r.id = uniqueKey j) →
      (idxs.foldl (fun st i => (st.1.insertRow (rowOf st.2 i), st.2 + 1))
          (t, c)).1.rows = t.rows ++ buildListG rowOf c idxs
      ∧ (idxs.foldl (fun st i => (st.1.insertRow (rowOf st.2 i), st.2 + 1))
          (t, c)).2 = c + idxs.length := by
  intro idxs
  induction idxs with
  | nil =>
    intro t c _
    simp [buildListG]
  | cons i is ih =>
    intro t c hinv
    simp only [List.foldl_cons]
    have hne : ∀ r ∈ t.rows, r.id ≠ (rowOf c i).id := by
      intro r hr he
      obtain ⟨j, hj, hje⟩ := hinv r hr
      rw [hid, hje] at he
      exact Nat.ne_of_lt hj (uniqueKey_inj he)
    rw [insertRow_append t (rowOf c i) hne]
    have hinv' : ∀ r ∈ ({ t with rows := t.rows ++ [rowOf c i] } :
        DataTable).rows, ∃ j, j < c + 1 ∧ r.id = uniqueKey j := by
      intro r hr
      rcases List.mem_append.mp hr with hr | hr
      · obtain ⟨j, hj, hje⟩ := hinv r hr
        exact ⟨j, Nat.lt_succ_of_lt hj, hje⟩
      · rw [List.mem_singleton.mp hr]
        exact ⟨c, Nat.lt_succ_self c, hid c i⟩
    obtain ⟨ha, hb⟩ := ih { t with rows := t.rows ++ [rowOf c i] } (c + 1) hinv'
    refine ⟨?_, ?_⟩
    · rw [ha]
      simp only
      rw [List.append_assoc]
      rfl
    · rw [hb, List.length_cons]
      omega

theorem foldl_insertCell_fn_id {β : Type} (f : β → String) (g : β → CellValue)
    (l : List β) (r : DataTableRow) :
    (l.foldl (fun row j => row.insertCell (f j) (g j)) r).id = r.id := by
  induction l generalizing r with
  | nil => rfl
  | cons j js ih =>
    rw [List.foldl_cons, ih]
    unfold DataTableRow.insertCell
    by_cases h : f j ∈ r.getCellNames <;> simp [h]

theorem builtRow_id (columns : List (List CellValue)) (headers : List String)
    (cc i : Nat) : (builtRow columns headers cc i).id = uniqueKey cc := by
  unfold builtRow
  exact foldl_insertCell_fn_id _ _ _ _

theorem builtRow_cells (columns : List (List CellValue))
    (headers : List String) (cc i : Nat)
    (hnd : ((List.range columns.length).map
      (fun j => headers.getD j "")).Nodup) :
    (builtRow columns headers cc i).cells
      = (List.range columns.length).map
          (fun j => (headers.getD j "", (columns.getD j []).getD i .absent)) := by
  unfold builtRow
  have hconv : ((List.range columns.length).map
        (fun j => (headers.getD j "", (columns.getD j []).getD i .absent))).foldl
        (fun (r : DataTableRow) (p : String × CellValue) => r.insertCell p.1 p.2)
        { id := uniqueKey cc, cells := [] }
      = (List.range columns.length).foldl
          (fun r j => r.insertCell (headers.getD j "")
            ((columns.getD j []).getD i .absent))
          { id := uniqueKey cc, cells := [] } := List.foldl_map _ _ _ _
  rw [← hconv]
  rw [foldl_insertCell_cells _ _ ?_ ?_]
  · simp
  · rw [List.map_map]
    have hcomp : (Prod.fst ∘ fun j =>
        ((headers.getD j "" : String), (columns.getD j []).getD i .absent))
        = fun j => headers.getD j "" := rfl
    rw [hcomp]
    exact hnd
  · intro n _
    simp [getCellNames_mk]

/-- Unfolding of `getTableFromColumns` in the non-degenerate case. -/
theorem getTableFromColumns_def (columns : List (List CellValue))
    (headers0 : List String) (ctr0 : Nat) (hc : columns.length ≠ 0) :
    DataParser.getTableFromColumns columns headers0 ctr0
      = (List.range (columns.headD []).length).foldl
          (fun st i =>
            (st.1.insertRow
              (builtRow columns (fullHeaders columns headers0 ctr0) st.2 i),
             st.2 + 1))
          ({ rows := [], presentation := fullHeaders columns headers0 ctr0 },
           ctr0 + (columns.length - headers0.length)) := by
  simp only [DataParser.getTableFromColumns]
  rw [if_neg hc]
  rfl

/-- Unfolding of `getTableFromColumns` in the no-columns case. -/
theorem getTableFromColumns_nil (headers0 : List String) (ctr0 : Nat) :
    DataParser.getTableFromColumns [] headers0 ctr0
      = ({ rows := [], presentation := fullHeaders [] headers0 ctr0 }, ctr0) := by
  simp [DataParser.getTableFromColumns, fullHeaders]

/-! ## C3 (amended) -/

/-- C3 amended: `getTableFromColumns` never signals anything on mismatched
column lengths — for every input (equal lengths or not) it returns normally,
building exactly one row per index of the **first** column: positions past a
shorter column are read as absent, and cells of a longer column beyond the
first column's length are dropped. -/
theorem getTableFromColumns_silent_rowcount (columns : List (List CellValue))
    (headers0 : List String) (ctr0 : Nat) :
    ((DataParser.getTableFromColumns columns headers0 ctr0).1).rows.length
      = (columns.headD []).length := by
  by_cases hc : columns.length = 0
  · have hnil : columns = [] := List.length_eq_zero.mp hc
    subst hnil
    rw [getTableFromColumns_nil]
    rfl
  · rw [getTableFromColumns_def columns headers0 ctr0 hc]
    obtain ⟨ha, -⟩ := insertRowFold
      (builtRow columns (fullHeaders columns headers0 ctr0))
      (builtRow_id columns (fullHeaders columns headers0 ctr0))
      (List.range (columns.headD []).length)
      { rows := [], presentation := fullHeaders columns headers0 ctr0 }
      (ctr0 + (columns.length - headers0.length))
      (by intro r hr; simp at hr)
    rw [ha]
    simp [buildListG_length]

/-! ## Support for the column round trip -/

theorem processCell_length_ge (k : Nat) (r : DataTableRow)
    (acc : List (String × List CellValue)) (n : String) :
    acc.length ≤ (processCell k r acc n).length := by
  unfold processCell
  cases hl : alookup n acc with
  | some v => simp [hl]
  | none => simp [hl]

theorem foldl_processCell_length_ge (k : Nat) (r : DataTableRow)
    (ns : List String) :
    ∀ (acc : List (String × List CellValue)),
      acc.length ≤ (ns.foldl (processCell k r) acc).length := by
  induction ns with
  | nil => intro acc; simp
  | cons n rest ih =>
    intro acc
    rw [List.foldl_cons]
    exact Nat.le_trans (processCell_length_ge k r acc n) (ih _)

theorem columnsRecordAux_length_ge :
    ∀ (l : List DataTableRow) (k : Nat)
      (acc : List (String × List CellValue)),
      acc.length ≤ (columnsRecordAux k acc l).length := by
  intro l
  induction l with
  | nil => intro k acc; simp [columnsRecordAux]
  | cons r rs ih =>
    intro k acc
    show acc.length ≤ (columnsRecordAux (k + 1) (processRow acc k r) rs).length
    refine Nat.le_trans ?_ (ih (k + 1) _)
    rw [processRow_def, List.length_map]
    exact Nat.le_trans (by rw [List.length_map]) (foldl_processCell_length_ge _ _ _ _)

theorem columnsRecord_ne_nil (t : DataTable) : columnsRecord t ≠ [] := by
  intro h
  have := columnsRecordAux_length_ge t.rows 0 [("id", [])]
  rw [show columnsRecordAux 0 [("id", ([] : List CellValue))] t.rows
    = columnsRecord t from rfl, h] at this
  simp at this

theorem getD_map_range {α : Type} (f : Nat → α) (K j : Nat) (d : α)
    (hj : j < K) : ((List.range K).map f).getD j d = f j := by
  rw [List.getD_eq_getElem?_getD, List.getElem?_map, List.getElem?_range hj]
  rfl

theorem buildListG_mem (rowOf : Nat → Nat → DataTableRow) :
    ∀ (idxs : List Nat) (c : Nat) (r : DataTableRow),
      r ∈ buildListG rowOf c idxs → ∃ cc i, i ∈ idxs ∧ r = rowOf cc i := by
  intro idxs
  induction idxs with
  | nil => intro c r h; simp [buildListG] at h
  | cons i is ih =>
    intro c r h
    rcases List.mem_cons.mp h with h | h
    · exact ⟨c, i, by simp, h⟩
    · obtain ⟨cc, i', hi', he⟩ := ih (c + 1) r h
      exact ⟨cc, i', by simp [hi'], he⟩

theorem buildListG_map {α : Type} (rowOf : Nat → Nat → DataTableRow)
    (f : DataTableRow → α) (g : Nat → α)
    (hfg : ∀ cc i, f (rowOf cc i) = g i) :
    ∀ (idxs : List Nat) (c : Nat),
      (buildListG rowOf c idxs).map f = idxs.map g := by
  intro idxs
  induction idxs with
  | nil => intro c; rfl
  | cons i is ih =>
    intro c
    simp only [buildListG, List.map_cons, hfg, ih]

theorem buildListG_map_id (rowOf : Nat → Nat → DataTableRow)
    (hid : ∀ cc i, (rowOf cc i).id = uniqueKey cc) :
    ∀ (idxs : List Nat) (c : Nat),
      (buildListG rowOf c idxs).map (fun r => CellValue.strV r.id)
        = (List.range idxs.length).map
            (fun p => CellValue.strV (uniqueKey (c + p))) := by
  intro idxs
  induction idxs with
  | nil => intro c; rfl
  | cons i is ih =>
    intro c
    simp only [buildListG, List.map_cons, hid, List.length_cons]
    rw [List.range_succ_eq_map, List.map_cons, List.map_map]
    congr 1
    rw [ih (c + 1)]
    apply List.map_congr_left
    intro p _
    simp only [Function.comp]
    rw [show c + (p + 1) = c + 1 + p by omega]

theorem columnsRecord_of_homog_rows (hs : List String) (hnd : hs.Nodup)
    (hid : "id" ∉ hs) (rows : List DataTableRow)
    (hrows : ∀ r ∈ rows, r.getCellNames = hs) (hne : rows ≠ []) :
    columnsRecordAux 0 [("id", [])] rows
      = ("id", rows.map (fun r => CellValue.strV r.id))
        :: hs.map (fun h => (h, rows.map (fun r => r.getCell h))) := by
  cases rows with
  | nil => exact absurd rfl hne
  | cons r0 rest =>
    show columnsRecordAux 1 (processRow [("id", [])] 0 r0) rest = _
    rw [processRow_first hs r0 (hrows r0 (by simp)) hnd hid]
    rw [columnsRecordAux_homog hs hnd hid rest 1 [CellValue.strV r0.id]
      (fun h => [r0.getCell h]) (fun q hq => hrows q (by simp [hq]))
      (by simp) (fun h _ => by simp)]
    simp

theorem uniqueKey_add_inj (c : Nat) :
    Function.Injective (fun j => uniqueKey (c + j)) := by
  intro a b h
  have := uniqueKey_inj h
  omega

theorem fullHeaders_nil (cols : List (List CellValue)) (c : Nat) :
    fullHeaders cols [] c
      = (List.range cols.length).map (fun j => uniqueKey (c + j)) := by
  simp [fullHeaders]

theorem builtRow_generated_cells (cols : List (List CellValue)) (c cc i : Nat) :
    (builtRow cols (fullHeaders cols [] c) cc i).cells
      = (List.range cols.length).map
          (fun j => (uniqueKey (c + j), (cols.getD j []).getD i .absent)) := by
  have hget : ∀ j ∈ List.range cols.length,
      (fullHeaders cols [] c).getD j "" = uniqueKey (c + j) := by
    intro j hj
    rw [fullHeaders_nil]
    exact getD_map_range _ _ _ _ (List.mem_range.mp hj)
  have hnd : ((List.range cols.length).map
      (fun j => (fullHeaders cols [] c).getD j "")).Nodup := by
    rw [List.map_congr_left hget]
    exact (List.nodup_range _).map (uniqueKey_add_inj c)
  rw [builtRow_cells _ _ _ _ hnd]
  exact List.map_congr_left (fun j hj => by rw [hget j hj])

theorem builtRow_generated_names (cols : List (List CellValue)) (c cc i : Nat) :
    (builtRow cols (fullHeaders cols [] c) cc i).getCellNames
      = (List.range cols.length).map (fun j => uniqueKey (c + j)) := by
  show ((builtRow cols (fullHeaders cols [] c) cc i).cells).map Prod.fst = _
  rw [builtRow_generated_cells, List.map_map]
  rfl

theorem builtRow_generated_getCell (cols : List (List CellValue))
    (c cc i j : Nat) (hj : j < cols.length) :
    (builtRow cols (fullHeaders cols [] c) cc i).getCell (uniqueKey (c + j))
      = (cols.getD j []).getD i .absent := by
  unfold DataTableRow.getCell
  rw [builtRow_generated_cells]
  rw [alookup_of_mem_nodup ?_ ?_]
  · rfl
  · rw [List.map_map]
    have hcomp : (Prod.fst ∘ fun j =>
        (uniqueKey (c + j), (cols.getD j []).getD i CellValue.absent))
        = fun j => uniqueKey (c + j) := rfl
    rw [hcomp]
    exact (List.nodup_range _).map (uniqueKey_add_inj c)
  · exact List.mem_map.mpr ⟨j, List.mem_range.mpr hj, rfl⟩

/-- Core of the amended round trip: rebuilding a table from nonempty columns
of a common positive length `N` with generated headers, then reading the
columns back, reproduces the original columns behind a fresh id column. -/
theorem roundtrip_core (cols : List (List CellValue)) (c N : Nat)
    (hN : 0 < N) (hKne : cols.length ≠ 0)
    (hhead : (cols.headD []).length = N)
    (hlen : ∀ col ∈ cols, col.length = N) :
    DataParser.getColumnsFromTable
        (DataParser.getTableFromColumns cols [] c).1 false
      = ((List.range N).map (fun i =>
          CellValue.strV (uniqueKey (c + cols.length + i)))) :: cols := by
  rw [getTableFromColumns_def cols [] c hKne]
  obtain ⟨hrows2, -⟩ := insertRowFold
    (builtRow cols (fullHeaders cols [] c))
    (builtRow_id cols (fullHeaders cols [] c))
    (List.range (cols.headD []).length)
    { rows := [], presentation := fullHeaders cols [] c }
    (c + (cols.length - ([] : List String).length))
    (by intro r hr; simp at hr)
  rw [getColumnsFromTable_eq_map_snd]
  unfold columnsRecord
  rw [hrows2, List.nil_append, hhead]
  have hcounter : c + (cols.length - ([] : List String).length)
      = c + cols.length := by simp
  rw [hcounter]
  have hndK : ((List.range cols.length).map
      (fun j => uniqueKey (c + j))).Nodup :=
    (List.nodup_range _).map (uniqueKey_add_inj c)
  have hidK : "id" ∉ (List.range cols.length).map (fun j => uniqueKey (c + j)) := by
    intro hmem
    obtain ⟨j, _, hj⟩ := List.mem_map.mp hmem
    exact uniqueKey_ne_id (c + j) hj
  have hhomog : ∀ r ∈ buildListG (builtRow cols (fullHeaders cols [] c))
      (c + cols.length) (List.range N),
      r.getCellNames = (List.range cols.length).map (fun j => uniqueKey (c + j)) := by
    intro r hr
    obtain ⟨cc, i, _, he⟩ := buildListG_mem _ _ _ _ hr
    rw [he]
    exact builtRow_generated_names cols c cc i
  have hne2 : buildListG (builtRow cols (fullHeaders cols [] c))
      (c + cols.length) (List.range N) ≠ [] := by
    apply List.ne_nil_of_length_pos
    rw [buildListG_length]
    simpa using hN
  rw [columnsRecord_of_homog_rows _ hndK hidK _ hhomog hne2]
  rw [List.map_cons]
  congr 1
  · show (buildListG (builtRow cols (fullHeaders cols [] c))
        (c + cols.length) (List.range N)).map (fun r => CellValue.strV r.id) = _
    rw [buildListG_map_id _ (builtRow_id cols (fullHeaders cols [] c))]
    rw [List.length_range]
  · rw [List.map_map, List.map_map]
    have hcol : ∀ j ∈ List.range cols.length,
        ((Prod.snd ∘ fun h => (h, (buildListG (builtRow cols
            (fullHeaders cols [] c)) (c + cols.length)
            (List.range N)).map (fun r => r.getCell h))) ∘
          (fun j => uniqueKey (c + j))) j
        = cols.getD j [] := by
      intro j hj
      have hjK := List.mem_range.mp hj
      show (buildListG (builtRow cols (fullHeaders cols [] c))
          (c + cols.length) (List.range N)).map
          (fun r => r.getCell (uniqueKey (c + j))) = cols.getD j []
      rw [buildListG_map _ _ (fun i => (cols.getD j []).getD i .absent)
        (fun cc i => builtRow_generated_getCell cols c cc i j hjK)]
      have hmem : cols.getD j [] ∈ cols := by
        rw [List.getD_eq_getElem?_getD, List.getElem?_eq_getElem hjK]
        exact List.getElem_mem hjK
      have hlenj : (cols.getD j []).length = N := hlen _ hmem
      rw [← hlenj]
      exact map_range_getD _ _
    rw [List.map_congr_left hcol]
    exact map_range_getD cols []

/-! ## C1 -/

/-- C1 counterexample: with no custom parse function and an empty
`dateFormat`, parsing `"2020/01/01"` matches the registered format
`YYYY/mm/dd` and computes its timestamp, yet the instance's stored
`dateFormat` afterwards is still the empty string — not the name of any
registered format.  The claimed memoization does not happen (source line 348
is commented out). -/
theorem parseDate_memoization_cex :
    (parseDateS defaultConverter "2020/01/01" none).1 = some 1577836800000 ∧
    (parseDateS defaultConverter "2020/01/01" none).2.options.dateFormat = "" ∧
    "" ∉ dateFormats.map Prod.fst := by
  refine ⟨by decide, rfl, by decide⟩

/-- C1 amended: `parseDate` does not remember the discovered format — the
instance is returned unchanged, so a later call without an explicit format
re-iterates the registry and recomputes the same result as the first call. -/
theorem parseDate_no_memoization (c : DataConverter) (v : String)
    (h1 : c.parseDateFn = none) (h2 : c.options.dateFormat = "") :
    (parseDateS c v none).2 = c ∧
    (parseDateS (parseDateS c v none).2 v none).1 = (parseDateS c v none).1 := by
  refine ⟨parseDateS_snd c v none, ?_⟩
  rw [parseDateS_snd c v none]

/-- C1 amended witness at `"2020/01/01"` on the default converter. -/
theorem parseDate_no_memoization_witness :
    (parseDateS defaultConverter "2020/01/01" none).2 = defaultConverter ∧
    (parseDateS (parseDateS defaultConverter "2020/01/01" none).2
        "2020/01/01" none).1
      = (parseDateS defaultConverter "2020/01/01" none).1 :=
  parseDate_no_memoization defaultConverter "2020/01/01" rfl rfl

/-! ## C2 -/

/-- C2 counterexample: with decimal point `','`, `asNumber("1 234,5")` is not
`1234.5`: `asNumber` calls `trim` without the `inside` flag, so the interior
space survives, the anchored decimal-separator pattern does not match, and
`parseFloat` stops at the space. -/
theorem asNumber_thousands_spacing_cex :
    DataConverter.asNumber commaConverter (.strJ "1 234,5") ≠ (1234.5 : Rat) := by
  have h : (1234.5 : Rat) = Rat.divInt 2469 2 := by
    rw [Rat.divInt_eq_div]; norm_num
  rw [h]; decide

/-- C2 amended: `asNumber("1 234,5")` with decimal point `','` returns `1`
(only the leading numeric prefix parses, since interior spacing is not
removed); without the interior space the comma is normalized and
`asNumber("1234,5")` returns `1234.5`. -/
theorem asNumber_decimal_normalization_amended :
    DataConverter.asNumber commaConverter (.strJ "1 234,5") = 1 ∧
    DataConverter.asNumber commaConverter (.strJ "1234,5") = (1234.5 : Rat) := by
  have h : (1234.5 : Rat) = Rat.divInt 2469 2 := by
    rw [Rat.divInt_eq_div]; norm_num
  exact ⟨by decide, by rw [h]; decide⟩

/-! ## C4 -/

/-- C4 counterexample: the series round trip of the positional point `[3,7]`
does not return the positional series options: `getSeriesOptionsFromTable`
emits object points (with the generated row id as an `id` field), never
positional arrays. -/
theorem series_roundtrip_positional_cex :
    DataParser.getSeriesOptionsFromTable
        (DataParser.getTableFromSeriesOptions seriesPoint37 ["x", "y"] 0).1
      ≠ seriesPoint37 := by
  decide

/-- C4 amended: the positional point `[3,7]` with point-array-map `['x','y']`
becomes a row with cells `{x:3, y:7}`, and converting back yields one object
point carrying the generated row id plus `x:3, y:7` — the cell values are
preserved, but in object (not positional) form. -/
theorem series_roundtrip_object_amended :
    (DataParser.getTableFromSeriesOptions seriesPoint37 ["x", "y"] 0).1.rows.map
        DataTableRow.cells
      = [[("x", CellValue.numV 3), ("y", CellValue.numV 7)]] ∧
    DataParser.getSeriesOptionsFromTable
        (DataParser.getTableFromSeriesOptions seriesPoint37 ["x", "y"] 0).1
      = { type := none
          data := [.objP [("id", .strV (uniqueKey 0)),
                          ("x", .numV 3), ("y", .numV 7)]] } := by
  constructor <;> decide

/-! ## C3 (counterexample) -/

/-- C3 counterexample: `getTableFromColumns` with columns of lengths 1 and 2
signals no error — it returns an ordinary table with exactly one row (the
first column's length), silently dropping the second column's extra cell `3`,
which appears nowhere in the result. -/
theorem getTableFromColumns_mismatch_cex :
    (DataParser.getTableFromColumns [[.numV 1], [.numV 2, .numV 3]]
        ["x", "y"] 0).1
      = { rows := [{ id := uniqueKey 0
                     cells := [("x", .numV 1), ("y", .numV 2)] }]
          presentation := ["x", "y"] } := by
  decide

/-! ## C5 -/

/-- C5 counterexample: on a one-row table the two conversion passes differ —
`getColumnsFromTable` drops the column names, so rebuilding generates fresh
headers and fresh row ids, and the second pass gains an extra id column. -/
theorem columns_roundtrip_cex :
    DataParser.getColumnsFromTable
        (DataParser.getTableFromColumns
          (DataParser.getColumnsFromTable tOneRow false) [] 0).1 false
      ≠ DataParser.getColumnsFromTable tOneRow false := by
  decide

/-- C5 amended: for every table, converting to columns, rebuilding, and
converting again reproduces the first pass's column arrays — lengths and cell
values, absent cells included, at the same positions — but shifted one place:
the second pass starts with a freshly generated id column (empty tables round
trip exactly).  The first pass's id column survives as an ordinary data
column because `getColumnsFromTable` returns positional arrays without
names. -/
theorem columns_roundtrip_amended (t : DataTable) (c : Nat) :
    DataParser.getColumnsFromTable
        (DataParser.getTableFromColumns
          (DataParser.getColumnsFromTable t false) [] c).1 false
      = (if t.rows.isEmpty then []
         else [(List.range t.rows.length).map (fun i =>
            CellValue.strV (uniqueKey
              (c + (DataParser.getColumnsFromTable t false).length + i)))])
        ++ DataParser.getColumnsFromTable t false := by
  by_cases hE : t.rows.isEmpty
  · rw [if_pos hE, List.nil_append]
    have hrows : t.rows = [] := List.isEmpty_iff.mp hE
    have hcols : DataParser.getColumnsFromTable t false = [[]] := by
      rw [getColumnsFromTable_eq_map_snd]
      unfold columnsRecord
      rw [hrows]
      rfl
    rw [hcols]
    have ht2 : (DataParser.getTableFromColumns [[]] [] c).1
        = { rows := [], presentation := fullHeaders [[]] [] c } := by
      rw [getTableFromColumns_def [[]] [] c (by simp)]
      simp
    rw [ht2, getColumnsFromTable_eq_map_snd]
    rfl
  · rw [if_neg hE]
    have hrowsne : t.rows ≠ [] := fun h => hE (by simp [h])
    have hN : 0 < t.rows.length := List.length_pos.mpr hrowsne
    obtain ⟨hlen1, -, -⟩ := recInv_columnsRecord t
    have hcolsrec := getColumnsFromTable_eq_map_snd t
    have hKne : (DataParser.getColumnsFromTable t false).length ≠ 0 := by
      rw [hcolsrec, List.length_map]
      intro h
      exact columnsRecord_ne_nil t (List.length_eq_zero.mp h)
    have hhead : ((DataParser.getColumnsFromTable t false).headD []).length
        = t.rows.length := by
      rw [hcolsrec]
      obtain ⟨p, rest, hrec⟩ : ∃ p rest, columnsRecord t = p :: rest := by
        cases hrec : columnsRecord t with
        | nil => exact absurd hrec (columnsRecord_ne_nil t)
        | cons p rest => exact ⟨p, rest, rfl⟩
      rw [hrec]
      simp only [List.map_cons, List.headD_cons]
      exact hlen1 p (by rw [hrec]; simp)
    have hlenall : ∀ col ∈ DataParser.getColumnsFromTable t false,
        col.length = t.rows.length := by
      intro col hcol
      rw [hcolsrec] at hcol
      obtain ⟨p, hp, hcp⟩ := List.mem_map.mp hcol
      rw [← hcp]
      exact hlen1 p hp
    rw [List.singleton_append]
    exact roundtrip_core (DataParser.getColumnsFromTable t false) c
      t.rows.length hN hKne hhead hlenall

/-! ## C7 -/

/-- C7: `deduceDateFormat` distinguishes the two sample sets: a component
exceeding 12 is classified as day and the four-digit component as year. -/
theorem deduceDateFormat_samples :
    (deduceDateFormatS defaultConverter ["31/12/2020", "01/01/2021"]
        none false).1 = "dd/mm/YYYY" ∧
    (deduceDateFormatS defaultConverter ["12/31/2020", "01/01/2021"]
        none false).1 = "mm/dd/YYYY" := by
  constructor <;> decide

/-! ## C8 -/

/-- C8: `guessType` classifies `"1577836800000"` as `Date` (beyond one year
of milliseconds), `"42"` as `number`, and `"hello"` as `string` (neither a
float nor a parseable date). -/
theorem guessType_examples :
    DataConverter.guessType defaultConverter "1577836800000" = "Date" ∧
    DataConverter.guessType defaultConverter "42" = "number" ∧
    DataConverter.guessType defaultConverter "hello" = "string" := by
  refine ⟨by decide, by decide, by decide⟩

/-! ## C9 -/

/-- C9: on a store whose table columns were inserted in order `c, a, b`,
after `setColumnOrder(['a','b','c'])` the export returns names in order
`['a','b','c']` with the id column excluded, and the value arrays are aligned
with the names. -/
theorem getColumnsForExport_order :
    DataStore.getColumnsForExport storeCab false
      = (["a", "b", "c"], [[.numV 2], [.numV 3], [.numV 1]]) := by
  decide

/-! ## C10 -/

/-- C10: with no custom parse function and no configured date format,
`parseDate` is deterministic: any sequence of interleaved `parseDate` calls
leaves the instance unchanged (auto-detection does not mutate the options),
so a repeated call returns the same result. -/
theorem parseDate_deterministic (c : DataConverter) (v : String)
    (vs : List String) (h1 : c.parseDateFn = none)
    (h2 : c.options.dateFormat = "") :
    vs.foldl (fun st u => (parseDateS st u none).2) c = c ∧
    (parseDateS (vs.foldl (fun st u => (parseDateS st u none).2) c) v none).1
      = (parseDateS c v none).1 := by
  have hfold : vs.foldl (fun st u => (parseDateS st u none).2) c = c := by
    induction vs with
    | nil => rfl
    | cons u us ih =>
      rw [List.foldl_cons, parseDateS_snd]
      exact ih
  exact ⟨hfold, by rw [hfold]⟩

/-- C10 witness: a call on `"2020/01/01"` gives the same result before and
after an interleaved call on `"1/2/2003"`. -/
theorem parseDate_deterministic_witness :
    ["1/2/2003"].foldl (fun st u => (parseDateS st u none).2) defaultConverter
      = defaultConverter ∧
    (parseDateS
        (["1/2/2003"].foldl (fun st u => (parseDateS st u none).2)
          defaultConverter) "2020/01/01" none).1
      = (parseDateS defaultConverter "2020/01/01" none).1 :=
  parseDate_deterministic defaultConverter "2020/01/01" ["1/2/2003"] rfl rfl

end HighchartsData
